import Mathlib

/-!
Verification of the natural-language-to-SQL pipeline of the dbt-MCP-Hackathon
repository.

The development shallowly embeds the Python modules
`backend/prompt_processor.py`, `backend/ai_service.py`,
`backend/model_service.py` and `backend/model_generator.py`.

Strings are modelled as `List Char` (`Str`).  Python's `re` module is modelled
by a small backtracking matcher (`mAll`) over a first-order regex syntax `RE`
covering exactly the constructs the source patterns use: literal characters
(case-insensitive, as every call passes `re.IGNORECASE`), character classes
`\s`, `\w`, `[a-zA-Z_]`, `[a-zA-Z0-9_]`, `[^,\n]`, `.`, concatenation,
alternation, `(?:...)?,` `*`/`+`, a single capture group, and negative
lookahead.  `mAll` enumerates match results in Python's backtracking priority
order (alternation left first, quantifiers greedy), so taking the head of the
list reproduces `re.search`/`re.finditer` behaviour; `searchAll` scans start
positions left to right exactly as `re.search` does.

Python `str.lower`/`str.upper` are modelled by character-wise
`Char.toLower`/`Char.toUpper`, which agrees with Python on the ASCII inputs the
pattern tables deal in.  Python float scores are modelled by `ℚ`; every score
that arises is of the form `m / n` with `n ∈ {5, 6}`, and any two distinct such
rationals differ by at least `1/30`, far above double-precision rounding error,
so order and equality of the Python floats coincide with the rationals.
-/

/-- Strings of the embedding: Python `str` as a list of characters. -/
abbrev Str := List Char

/-- Shorthand for string literals. -/
def S (s : String) : Str := s.toList

/-- Apostrophe character (spelled via its code point). -/
def apos : Char := Char.ofNat 39

/-- Backtick character. -/
def btick : Char := Char.ofNat 96

/-- Double-quote character. -/
def dquote : Char := Char.ofNat 34

/-- Python `str.lower` (ASCII-faithful). -/
def lowerS (l : Str) : Str := l.map Char.toLower

/-- Python `str.upper` (ASCII-faithful). -/
def upperS (l : Str) : Str := l.map Char.toUpper

/-- Python `\s` (ASCII whitespace as matched by `re` on these inputs). -/
def isPySpace (c : Char) : Bool :=
  c = ' ' || c = '\t' || c = '\n' || c = '\r' || c = Char.ofNat 12 || c = Char.ofNat 11

/-- Python `str.strip`: drop leading and trailing whitespace. -/
def stripS (l : Str) : Str :=
  ((l.dropWhile isPySpace).reverse.dropWhile isPySpace).reverse

/-- Character classes appearing in the source's regex pattern tables. -/
inductive CSet where
  | space : CSet                -- `\s`
  | word : CSet                 -- `\w` (ASCII)
  | identStart : CSet           -- `[a-zA-Z_]`
  | identCont : CSet            -- `[a-zA-Z0-9_]`
  | notCommaNl : CSet           -- `[^,\n]`
  | dotAny : CSet               -- `.` (anything but newline)
  | lit : Char → CSet           -- literal character, case-insensitive
  deriving DecidableEq, Repr

/-- Membership test of a character class, with `re.IGNORECASE` semantics for
literals (pattern literals are stored lower-case). -/
def CSet.test : CSet → Char → Bool
  | .space, c => isPySpace c
  | .word, c => c.isAlphanum || c = '_'
  | .identStart, c => c.isAlpha || c = '_'
  | .identCont, c => c.isAlphanum || c = '_'
  | .notCommaNl, c => !(c = ',' || c = '\n')
  | .dotAny, c => !(c = '\n')
  | .lit a, c => c.toLower = a

/-- Regular expressions, covering exactly the constructs used by the source's
pattern tables. -/
inductive RE where
  | eps : RE
  | cls : CSet → RE
  | seq : RE → RE → RE
  | alt : RE → RE → RE
  | opt : RE → RE             -- `(?:...)?`
  | star : RE → RE            -- `...*` (greedy)
  | grp : RE → RE             -- the single capture group `(...)`
  | nla : RE → RE             -- negative lookahead `(?!...)`
  deriving DecidableEq, Repr

/-- One backtracking alternative: the rest of the input after the match, and
the capture group's text if the group participated. -/
abbrev MRes := Str × Option Str

/-- Iteration of a greedy `*`: try consuming another (non-empty) repetition
first, then fall back to stopping.  `fuel` bounds the number of repetitions;
callers pass the input length, which suffices because every starred
sub-pattern in the source consumes at least one character. -/
def starAll (m : Str → Option Str → List MRes) : Nat → Str → Option Str → List MRes
  | 0, s, cap => [(s, cap)]
  | fuel + 1, s, cap =>
      ((m s cap).flatMap fun r =>
        if r.1.length < s.length then starAll m fuel r.1 r.2 else []) ++ [(s, cap)]

/-- All ways a regex can match a prefix of `s`, in Python's backtracking
priority order (so the head of the list is the match `re` would produce). -/
def mAll : RE → Str → Option Str → List MRes
  | .eps, s, cap => [(s, cap)]
  | .cls t, s, cap =>
      match s with
      | [] => []
      | c :: cs => if t.test c then [(cs, cap)] else []
  | .seq a b, s, cap => (mAll a s cap).flatMap fun r => mAll b r.1 r.2
  | .alt a b, s, cap => mAll a s cap ++ mAll b s cap
  | .opt a, s, cap => mAll a s cap ++ [(s, cap)]
  | .star a, s, cap => starAll (fun s' c' => mAll a s' c') s.length s cap
  | .grp a, s, cap =>
      (mAll a s cap).map fun r => (r.1, some (s.take (s.length - r.1.length)))
  | .nla a, s, cap =>
      match mAll a s none with
      | [] => [(s, cap)]
      | _ :: _ => []

/-- Fuel-bounded position scan of `re.search` (structural recursion so that
the kernel can evaluate it; the fuel is the input length, which always
suffices since each step drops one character). -/
def searchFuel (re : RE) : Nat → Str → Option MRes
  | 0, s =>
      match mAll re s none with
      | r :: _ => some r
      | [] => none
  | fuel + 1, s =>
      match mAll re s none with
      | r :: _ => some r
      | [] =>
          match s with
          | [] => none
          | _ :: t => searchFuel re fuel t

/-- `re.search`: scan start positions left to right, return the first match
(rest of input after the match, and the capture). -/
def searchAll (re : RE) (s : Str) : Option MRes := searchFuel re s.length s

/-- Boolean `re.search` test. -/
def searchB (re : RE) (s : Str) : Bool := (searchAll re s).isSome

/-- Fuel-bounded body of `re.finditer` (see `findIterCaps`). -/
def findIterFuel (re : RE) : Nat → Str → List Str
  | 0, _ => []
  | fuel + 1, s =>
      match searchAll re s with
      | none => []
      | some (rest, cap) =>
          (match cap with | some c => [c] | none => []) ++
          (if rest.length < s.length then findIterFuel re fuel rest else [])

/-- `re.finditer`, collecting `match.group(1)` of every (non-overlapping)
match.  Every pattern this is used with has a mandatory non-empty capture, so
matches are non-empty and the length guard never fires on source inputs. -/
def findIterCaps (re : RE) (s : Str) : List Str := findIterFuel re (s.length + 1) s

/-- Concatenation of literal (case-insensitive) characters. -/
def litSeq : List Char → RE
  | [] => .eps
  | c :: cs => .seq (.cls (.lit c)) (litSeq cs)

/-- A literal word of a pattern (stored lower-case, matched case-insensitively). -/
def litS (s : String) : RE := litSeq (S s)

/-- `\s+` -/
def wsP : RE := .seq (.cls .space) (.star (.cls .space))

/-- `\w+` -/
def wordP : RE := .seq (.cls .word) (.star (.cls .word))

/-- `[^,\n]+` -/
def ncnP : RE := .seq (.cls .notCommaNl) (.star (.cls .notCommaNl))

/-- `([a-zA-Z_][a-zA-Z0-9_]*)` — the identifier capture group. -/
def identCap : RE := .grp (.seq (.cls .identStart) (.star (.cls .identCont)))

/-- `.*` -/
def dotStarP : RE := .star (.cls .dotAny)

/-- Sequence of several regexes. -/
def seqL : List RE → RE
  | [] => .eps
  | [r] => r
  | r :: rs => .seq r (seqL rs)

/-- Alternation `(?:a|b|...)`, tried left to right. -/
def altL : List RE → RE
  | [] => .eps
  | [r] => r
  | r :: rs => .alt r (altL rs)

/-! ## Data model (`shared/models.py`, `prompt_processor.py`, `ai_service.py`) -/

/-- `IntentType` enum of `prompt_processor.py`. -/
inductive IntentType where
  | CREATE_MODEL
  | JOIN_TABLES
  | AGGREGATE_DATA
  | FILTER_DATA
  | TRANSFORM_DATA
  | EXPLORE_DATA
  | UNKNOWN
  deriving DecidableEq, Repr

/-- `TableReference` dataclass.  The `alias` and `schema` fields are never
set by any embedded code path (the extractor always leaves them `None`), so
they are omitted. -/
structure TableReference where
  name : Str
  is_model : Bool := false
  confidence : ℚ := 0
  deriving DecidableEq, Repr

/-- `JoinRequirement` dataclass. -/
structure JoinRequirement where
  left_table : Str
  right_table : Str
  join_type : Str := S "inner"
  join_condition : Option Str := none
  confidence : ℚ := 0
  deriving DecidableEq, Repr

/-- `PromptAnalysis` dataclass.  `context_models` is modelled by the list of
model names (the source stores the full `ModelMetadata`; only the names matter
to the embedded pipeline). -/
structure PromptAnalysis where
  intent : IntentType
  confidence : ℚ
  table_references : List TableReference
  join_requirements : List JoinRequirement
  filters : List Str
  aggregations : List Str
  transformations : List Str
  context_models : List Str
  output_name : Option Str := none
  materialization : Str := S "view"
  description : Option Str := none
  deriving DecidableEq, Repr

/-- `SQLGenerationResult` dataclass of `ai_service.py`. -/
structure SQLGenerationResult where
  sql : Str
  model_name : Str
  description : Option Str
  materialization : Str
  confidence : ℚ
  reasoning : Option Str := none
  warnings : List Str := []
  deriving DecidableEq, Repr

/-! ## Pattern tables (`PromptProcessor._load_patterns`) -/

/-- `X\s+(?:a\s+)?(?:new\s+)?model` scheme shared by the create-intent
patterns. -/
def verbModelP (v : String) : RE :=
  seqL [litS v, wsP, .opt (seqL [litS "a", wsP]), .opt (seqL [litS "new", wsP]), litS "model"]

/-- Intent patterns for `CREATE_MODEL`. -/
def createPats : List RE :=
  [ verbModelP "create", verbModelP "build", verbModelP "generate", verbModelP "make",
    seqL [litS "i", wsP, altL [litS "want", litS "need"], wsP,
          .opt (seqL [litS "a", wsP]), .opt (seqL [litS "new", wsP]), litS "model"] ]

/-- Intent patterns for `JOIN_TABLES`. -/
def joinPats : List RE :=
  [ seqL [litS "join", wsP, wordP, wsP, altL [litS "with", litS "and", litS "to"], wsP, wordP],
    seqL [litS "combine", wsP, wordP, wsP, altL [litS "with", litS "and"], wsP, wordP],
    seqL [litS "merge", wsP, wordP, wsP, altL [litS "with", litS "and"], wsP, wordP],
    seqL [altL [litS "inner", litS "left", litS "right", litS "full"], wsP, litS "join"],
    seqL [litS "connect", wsP, wordP, wsP, altL [litS "with", litS "and", litS "to"], wsP, wordP] ]

/-- Intent patterns for `AGGREGATE_DATA`. -/
def aggregatePats : List RE :=
  [ altL [litS "sum", litS "count", litS "avg", litS "average", litS "min", litS "max",
          seqL [litS "group", wsP, litS "by"]],
    seqL [litS "aggregate", wsP],
    seqL [litS "total", wsP],
    seqL [litS "calculate", wsP, .opt (seqL [litS "the", wsP]),
          altL [litS "sum", litS "count", litS "average", litS "total"]],
    seqL [litS "group", wsP, dotStarP, wsP, litS "by"] ]

/-- Intent patterns for `FILTER_DATA`. -/
def filterPats : List RE :=
  [ seqL [litS "filter", wsP],
    seqL [litS "where", wsP],
    seqL [litS "only", wsP, altL [litS "show", litS "include", litS "get"]],
    seqL [litS "exclude", wsP],
    seqL [altL [litS "greater", litS "less"], wsP, litS "than"],
    seqL [litS "between", wsP, dotStarP, wsP, litS "and"] ]

/-- Intent patterns for `TRANSFORM_DATA`. -/
def transformPats : List RE :=
  [ seqL [litS "transform", wsP],
    seqL [litS "convert", wsP],
    seqL [litS "calculate", wsP],
    seqL [litS "derive", wsP],
    seqL [litS "add", wsP, .opt (seqL [litS "a", wsP]), .opt (seqL [litS "new", wsP]), litS "column"],
    seqL [litS "create", wsP, .opt (seqL [litS "a", wsP]), .opt (seqL [litS "new", wsP]), litS "field"] ]

/-- `self.intent_patterns`: dict insertion order create, join, aggregate,
filter, transform. -/
def intentTable : List (IntentType × List RE) :=
  [ (.CREATE_MODEL, createPats), (.JOIN_TABLES, joinPats), (.AGGREGATE_DATA, aggregatePats),
    (.FILTER_DATA, filterPats), (.TRANSFORM_DATA, transformPats) ]

/-- `self.table_patterns`. -/
def tablePatterns : List RE :=
  [ seqL [altL [litS "from", litS "join", litS "with", litS "and", litS "table", litS "model"],
          wsP, identCap],
    seqL [identCap, wsP, altL [litS "table", litS "model"]],
    seqL [.cls (.lit btick), identCap, .cls (.lit btick)],
    seqL [.cls (.lit apos), identCap, .cls (.lit apos)],
    seqL [.cls (.lit dquote), identCap, .cls (.lit dquote)] ]

/-- `self.join_patterns`: dict of join type name to patterns. -/
def joinTypeTable : List (Str × List RE) :=
  [ (S "inner", [seqL [litS "inner", wsP, litS "join"],
                 seqL [litS "join", wsP,
                       .nla (seqL [dotStarP, altL [litS "left", litS "right", litS "full"]])]]),
    (S "left",  [seqL [litS "left", wsP, .opt (seqL [litS "outer", wsP]), litS "join"]]),
    (S "right", [seqL [litS "right", wsP, .opt (seqL [litS "outer", wsP]), litS "join"]]),
    (S "full",  [seqL [litS "full", wsP, .opt (seqL [litS "outer", wsP]), litS "join"],
                 seqL [litS "full", wsP, litS "join"]]) ]

/-- `self.output_patterns`. -/
def outputPatterns : List RE :=
  [ seqL [altL [litS "call", litS "name"], wsP,
          altL [litS "it", litS "this", seqL [litS "the", wsP, litS "model"]], wsP, identCap],
    seqL [altL [litS "as", litS "called"], wsP, identCap],
    seqL [litS "create", wsP, .opt (seqL [litS "a", wsP]), litS "model", wsP, identCap],
    seqL [litS "model", wsP, altL [litS "named", litS "called"], wsP, identCap] ]

/-- `self.materialization_patterns`: dict insertion order table, view,
incremental. -/
def matTable : List (Str × List RE) :=
  [ (S "table", [seqL [.opt (seqL [litS "as", wsP]), .opt (seqL [litS "a", wsP]), litS "table"],
                 seqL [litS "materialize", wsP, .opt (seqL [litS "as", wsP]), litS "table"]]),
    (S "view",  [seqL [.opt (seqL [litS "as", wsP]), .opt (seqL [litS "a", wsP]), litS "view"],
                 seqL [litS "materialize", wsP, .opt (seqL [litS "as", wsP]), litS "view"]]),
    (S "incremental", [litS "incremental", litS "incrementally"]) ]

/-- `where_patterns` of `_extract_filters`. -/
def wherePatterns : List RE :=
  [ seqL [litS "where", wsP, .grp ncnP],
    seqL [litS "filter", wsP, .opt (seqL [litS "by", wsP]), .grp ncnP],
    seqL [litS "only", wsP, altL [litS "show", litS "include", litS "get"], wsP, .grp ncnP] ]

/-- `agg_patterns` of `_extract_aggregations`. -/
def aggCapPatterns : List RE :=
  [ .grp (seqL [litS "sum", wsP, .opt (seqL [litS "of", wsP]), wordP]),
    .grp (seqL [litS "count", wsP, .opt (seqL [litS "of", wsP]), wordP]),
    .grp (.alt (litS "avg") (seqL [litS "average", wsP, .opt (seqL [litS "of", wsP]), wordP])),
    .grp (seqL [litS "min", wsP, .opt (seqL [litS "of", wsP]), wordP]),
    .grp (seqL [litS "max", wsP, .opt (seqL [litS "of", wsP]), wordP]),
    .grp (seqL [litS "group", wsP, litS "by", wsP, wordP]) ]

/-- `transform_patterns` of `_extract_transformations`. -/
def transformCapPatterns : List RE :=
  [ .grp (seqL [litS "calculate", wsP, ncnP]),
    .grp (seqL [litS "convert", wsP, ncnP]),
    .grp (seqL [litS "add", wsP, .opt (seqL [litS "a", wsP]), .opt (seqL [litS "new", wsP]),
                litS "column", wsP, ncnP]),
    .grp (seqL [litS "create", wsP, .opt (seqL [litS "a", wsP]), .opt (seqL [litS "new", wsP]),
                litS "field", wsP, ncnP]) ]

/-! ## Intent detection (`PromptProcessor._detect_intent`) -/

/-- Number of patterns of a set that match the prompt at least once. -/
def matchCount (pats : List RE) (p : Str) : Nat := pats.countP (fun r => searchB r p)

/-- Python `max(items, key=score)`: keep the current best, replace only on a
strictly greater score — so the first maximal element wins. -/
def pickBest : (IntentType × ℚ) → List (IntentType × ℚ) → (IntentType × ℚ)
  | b, [] => b
  | b, y :: ys => pickBest (if b.2 < y.2 then y else b) ys

/-- The `intent_scores` dict: intents with at least one matching pattern,
scored by matched-pattern count over total pattern count, in declaration
order. -/
def intentScores (p : Str) : List (IntentType × ℚ) :=
  intentTable.filterMap fun it =>
    let m := matchCount it.2 p
    if m > 0 then some (it.1, mkRat m it.2.length) else none

/-- `PromptProcessor._detect_intent` (the argument is the lower-cased prompt,
as passed by `analyze_prompt`). -/
def detect_intent (p : Str) : IntentType × ℚ :=
  match intentScores p with
  | [] => (.UNKNOWN, 0)
  | x :: xs => pickBest x xs

/-! ## Table reference extraction (`PromptProcessor._extract_table_references`) -/

/-- All `group(1)` captures of the five table patterns, in pattern order then
match order (the iteration order of the source's nested loops). -/
def allTableCaps (prompt : Str) : List Str :=
  tablePatterns.flatMap (fun pat => findIterCaps pat prompt)

/-- First phase of `_extract_table_references`: fold the regex captures,
deduplicating by lower-cased name (`found_names`), flagging known models
(`_is_existing_model` does an exact-name manifest lookup) and attaching
confidence 0.8 (model) / 0.6 (unknown table). -/
def addCaps (models : List Str) : List Str → List Str → List TableReference →
    List TableReference × List Str
  | [], found, acc => (acc, found)
  | c :: rest, found, acc =>
      if c ≠ [] ∧ lowerS c ∉ found then
        let is_m : Bool := c ∈ models
        addCaps models rest (found ++ [lowerS c])
          (acc ++ [{ name := c, is_model := is_m,
                     confidence := if is_m then mkRat 8 10 else mkRat 6 10 }])
      else addCaps models rest found acc

/-- Second phase of `_extract_table_references`: scan every known model name
as a case-insensitive substring of the prompt, adding unseen ones with
confidence 0.9. -/
def addModelScan (prompt : Str) : List Str → List Str → List TableReference →
    List TableReference
  | [], _, acc => acc
  | m :: ms, found, acc =>
      if lowerS m <:+: lowerS prompt ∧ lowerS m ∉ found then
        addModelScan prompt ms (found ++ [lowerS m])
          (acc ++ [{ name := m, is_model := true, confidence := mkRat 9 10 }])
      else addModelScan prompt ms found acc

/-- `PromptProcessor._extract_table_references` (runs on the original-case
prompt; `models` is the manifest's model-name list in node order). -/
def extract_table_references (models : List Str) (prompt : Str) : List TableReference :=
  let phase1 := addCaps models (allTableCaps prompt) [] []
  addModelScan prompt models phase1.2 phase1.1

/-! ## Remaining extractions of `analyze_prompt` -/

/-- Join-type detection loop of `_extract_join_requirements`: the inner
`break` only leaves the pattern loop, so a later matching join type
overwrites an earlier one. -/
def detectJoinType : List (Str × List RE) → Str → Str → Str
  | [], _, jt => jt
  | (ty, pats) :: rest, p, jt =>
      detectJoinType rest p (if pats.any (fun pat => searchB pat p) then ty else jt)

/-- `PromptProcessor._extract_join_requirements`. -/
def extract_join_requirements (p : Str) (refs : List TableReference) : List JoinRequirement :=
  if refs.length < 2 then []
  else
    match refs with
    | r0 :: r1 :: _ =>
        [{ left_table := r0.name, right_table := r1.name,
           join_type := detectJoinType joinTypeTable p (S "inner"),
           confidence := mkRat 7 10 }]
    | _ => []

/-- `PromptProcessor._extract_output_name`: first pattern that matches wins,
returning its `group(1)`. -/
def firstCap : List RE → Str → Option Str
  | [], _ => none
  | pat :: rest, p =>
      match searchAll pat p with
      | some (_, some c) => some c
      | some (_, none) => none
      | none => firstCap rest p

/-- `PromptProcessor._extract_output_name` (argument is the lower-cased
prompt). -/
def extract_output_name (p : Str) : Option Str := firstCap outputPatterns p

/-- `PromptProcessor._extract_materialization`: first materialization whose
pattern list has a match; default `view`. -/
def extractMatFrom : List (Str × List RE) → Str → Str
  | [], _ => S "view"
  | (ty, pats) :: rest, p =>
      if pats.any (fun pat => searchB pat p) then ty else extractMatFrom rest p

/-- `PromptProcessor._extract_materialization`. -/
def extract_materialization (p : Str) : Str := extractMatFrom matTable p

/-- Shared loop shape of `_extract_filters` / `_extract_aggregations` /
`_extract_transformations`: all `finditer` captures, stripped, empty ones
dropped. -/
def collectFrags (pats : List RE) (p : Str) : List Str :=
  pats.flatMap fun pat =>
    (findIterCaps pat p).filterMap fun c =>
      if stripS c ≠ [] then some (stripS c) else none

/-- `PromptProcessor._build_context` (model names only). -/
def buildContext (models : List Str) (refs : List TableReference) : List Str :=
  refs.filterMap fun r =>
    if r.is_model then (if r.name ∈ models then some r.name else none) else none

/-- Python `sep.join(items)`. -/
def joinWith (sep : Str) : List Str → Str
  | [] => []
  | [x] => x
  | x :: xs => x ++ sep ++ joinWith sep xs

/-- `PromptProcessor._generate_description`. -/
def generate_description (prompt : Str) (intent : IntentType)
    (refs : List TableReference) : Option Str :=
  if intent = .CREATE_MODEL then
    if refs ≠ [] then
      some (S "Model generated from prompt: " ++ prompt.take 100 ++
            S "... using tables: " ++ joinWith (S ", ") (refs.map (·.name)))
    else some (S "Model generated from prompt: " ++ prompt.take 100 ++ S "...")
  else none

/-- `PromptProcessor.analyze_prompt`.  `models` stands for the
`ModelMetadataService`'s model names in manifest order. -/
def analyze_prompt (models : List Str) (prompt : Str) : PromptAnalysis :=
  let pl := lowerS prompt
  let ic := detect_intent pl
  let refs := extract_table_references models prompt
  { intent := ic.1, confidence := ic.2,
    table_references := refs,
    join_requirements := extract_join_requirements pl refs,
    filters := collectFrags wherePatterns pl,
    aggregations := collectFrags aggCapPatterns pl,
    transformations := collectFrags transformCapPatterns pl,
    context_models := buildContext models refs,
    output_name := extract_output_name pl,
    materialization := extract_materialization pl,
    description := generate_description prompt ic.1 refs }

/-! ## SQL synthesis (`KiroAIService`) -/

/-- `{{ ref('<name>') }}` if the reference is a known model, else the bare
name (`ai_service.py`'s ref-vs-raw rule). -/
def refWrap (n : Str) : Str := S "\x7b\x7b ref(" ++ [apos] ++ n ++ [apos] ++ S ") \x7d\x7d"

/-- The string used for a table reference in generated SQL. -/
def refStrOf (t : TableReference) : Str := if t.is_model then refWrap t.name else t.name

/-- The WHERE-clause body lines: first filter unprefixed, later ones prefixed
`and`. -/
def filterLines : List Str → List Str
  | [] => []
  | f :: rest => (S "    " ++ f) :: rest.map (fun g => S "    and " ++ g)

/-- `KiroAIService._generate_simple_select_sql`. -/
def generate_simple_select_sql (a : PromptAnalysis) : List Str :=
  match a.table_references with
  | [] => [S "-- No table references found in prompt",
           S "-- Please specify which tables or models to use",
           S "select 1 as placeholder"]
  | t :: _ => [S "select * from " ++ refStrOf t]

/-- `KiroAIService._generate_join_sql`. -/
def generate_join_sql (a : PromptAnalysis) : List Str :=
  match a.table_references with
  | t0 :: t1 :: _ =>
      let jt := match a.join_requirements with
        | j :: _ => j.join_type
        | [] => S "inner"
      [S "with", [], S "left_table as (", S "  select * from " ++ refStrOf t0,
       S "),", [], S "right_table as (", S "  select * from " ++ refStrOf t1,
       S "),", [], S "final as (", S "  select", S "    left_table.*,",
       S "    right_table.*", S "  from left_table",
       S "  " ++ jt ++ S " join right_table",
       S "    on left_table.id = right_table.id  -- Adjust join condition as needed"]
      ++ (if a.filters ≠ [] then S "  where" :: filterLines a.filters else [])
      ++ [S ")", [], S "select * from final"]
  | _ => generate_simple_select_sql a

/-- `sql_parts[-1] = sql_parts[-1][:-1]` when the last line ends with a
comma. -/
def stripLastComma (lines : List Str) : List Str :=
  match lines.getLast? with
  | some l => if l.getLast? = some ',' then lines.dropLast ++ [l.dropLast] else lines
  | none => lines

/-- `KiroAIService._generate_aggregate_sql`. -/
def generate_aggregate_sql (a : PromptAnalysis) : List Str :=
  match a.table_references with
  | [] => [S "select 1 as placeholder"]
  | t :: _ =>
      let head := [S "with", [], S "source_data as (",
                   S "  select * from " ++ refStrOf t, S "),", [],
                   S "aggregated as (", S "  select"]
      let mid := if a.aggregations ≠ [] then
          a.aggregations.map (fun g => S "    " ++ g ++ S ",")
        else [S "    count(*) as row_count,",
              S "    count(distinct id) as unique_ids  -- Adjust columns as needed"]
      stripLastComma (head ++ mid)
      ++ [S "  from source_data"]
      ++ (if a.aggregations.any (fun g => decide (S "group by" <:+: lowerS g))
          then [S "  group by 1  -- Adjust grouping columns as needed"] else [])
      ++ [S ")", [], S "select * from aggregated"]

/-- `KiroAIService._generate_filter_sql`. -/
def generate_filter_sql (a : PromptAnalysis) : List Str :=
  match a.table_references with
  | [] => [S "select 1 as placeholder"]
  | t :: _ =>
      [S "with", [], S "source_data as (", S "  select * from " ++ refStrOf t,
       S "),", [], S "filtered as (", S "  select *", S "  from source_data"]
      ++ (if a.filters ≠ [] then S "  where" :: filterLines a.filters else [])
      ++ [S ")", [], S "select * from filtered"]

/-- `KiroAIService._generate_transform_sql`. -/
def generate_transform_sql (a : PromptAnalysis) : List Str :=
  match a.table_references with
  | [] => [S "select 1 as placeholder"]
  | t :: _ =>
      let head := [S "with", [], S "source_data as (",
                   S "  select * from " ++ refStrOf t, S "),", [],
                   S "transformed as (", S "  select", S "    *,"]
      let tl := if a.transformations ≠ [] then
          a.transformations.flatMap (fun tr =>
            if S "calculate" <:+: lowerS tr then [S "    -- Add calculated fields here"]
            else if S "convert" <:+: lowerS tr then [S "    -- Add conversion logic here"]
            else if S "column" <:+: lowerS tr ∨ S "field" <:+: lowerS tr then
              [S "    -- Add new column here"]
            else [])
        else [S "    current_timestamp as processed_at"]
      stripLastComma (head ++ tl)
      ++ [S "  from source_data", S ")", [], S "select * from transformed"]

/-- `KiroAIService._generate_model_name`. -/
def generate_model_name (a : PromptAnalysis) : Str :=
  match a.table_references with
  | [] => S "generated_model"
  | t :: _ =>
      match a.intent with
      | .JOIN_TABLES => S "joined_" ++ t.name
      | .AGGREGATE_DATA => S "agg_" ++ t.name
      | .FILTER_DATA => S "filtered_" ++ t.name
      | .TRANSFORM_DATA => S "transformed_" ++ t.name
      | _ => S "new_" ++ t.name

/-- Intent dispatch of `_mock_kiro_ai_generation`: the `sql_parts` built after
the config block. -/
def generateBody (a : PromptAnalysis) : List Str :=
  if a.intent = .JOIN_TABLES ∧ 2 ≤ a.table_references.length then generate_join_sql a
  else if a.intent = .AGGREGATE_DATA then generate_aggregate_sql a
  else if a.intent = .FILTER_DATA then generate_filter_sql a
  else if a.intent = .TRANSFORM_DATA then generate_transform_sql a
  else generate_simple_select_sql a

/-- The config-block lines (emitted only for a non-`view` materialization). -/
def configParts (a : PromptAnalysis) : List Str :=
  if a.materialization ≠ S "view" then
    [S "\x7b\x7b", S "  config(",
     S "    " ++ (S "materialized=" ++ [apos] ++ a.materialization ++ [apos]),
     S "  )", S "\x7d\x7d", []]
  else []

/-- `KiroAIService._mock_kiro_ai_generation` (also the observable behaviour of
`generate_sql_from_analysis`). -/
def mock_kiro_ai_generation (a : PromptAnalysis) : SQLGenerationResult :=
  { sql := joinWith [ '\n' ] (configParts a ++ generateBody a),
    model_name := match a.output_name with
      | some n => if n ≠ [] then n else generate_model_name a
      | none => generate_model_name a,
    description := a.description,
    materialization := a.materialization,
    confidence := mkRat 8 10,
    reasoning := some (S "Generated using pattern-based mock implementation") }

/-! ## Shallow SQL validators -/

/-- Python `s.split(sep)` for a single separator character (keeps empty
pieces). -/
def pySplit (sep : Char) : Str → List Str
  | [] => [[]]
  | c :: cs =>
      if c = sep then [] :: pySplit sep cs
      else
        match pySplit sep cs with
        | h :: t => (c :: h) :: t
        | [] => [[c]]

/-- The trailing-comma warnings of `KiroAIService.validate_generated_sql`,
as the 1-based numbers of the flagged (comma-carrying) lines: a line is
flagged when its stripped text ends with a comma, it is not the last line,
and the immediately following line contains `from` (case-insensitively,
anywhere) or contains `)` after stripping. -/
def aiCommaWarnLines (sql : Str) : List Nat :=
  let lines := pySplit '\n' sql
  (List.range lines.length).filterMap fun i =>
    match lines.get? i, lines.get? (i + 1) with
    | some line, some next =>
        if (stripS line).getLast? = some ',' ∧
           (S "from" <:+: lowerS next ∨ ')' ∈ stripS next)
        then some (i + 1) else none
    | _, _ => none

/-- The SELECT-presence check of `validate_generated_sql` /
`_validate_sql_content`: `is_valid` fails iff `select` is absent. -/
def sqlHasSelect (sql : Str) : Bool := S "select" <:+: lowerS sql

/-- The clause keywords of `_validate_sql_content`'s trailing-comma check. -/
def clauseKeywords : List Str :=
  [S "from", S "where", S "group", S "order", S "having", S ")"]

/-- `next_line.startswith(('from', 'where', 'group', 'order', 'having', ')'))`. -/
def startsWithClauseKw (l : Str) : Bool := clauseKeywords.any (fun k => k.isPrefixOf l)

/-- The trailing-comma warnings of
`ModelFileManager._validate_sql_content`, as the 1-based numbers of the
flagged lines: a line is flagged when its stripped text ends with a comma and
the next non-empty (after stripping) line starts, case-insensitively, with
one of `from`, `where`, `group`, `order`, `having`, `)`. -/
def fmCommaWarnLines (content : Str) : List Nat :=
  let lines := pySplit '\n' content
  (List.range lines.length).filterMap fun idx =>
    match lines.get? idx with
    | some line =>
        if (stripS line).getLast? = some ',' then
          match (lines.drop (idx + 1)).find? (fun l => decide (stripS l ≠ [])) with
          | some nl => if startsWithClauseKw (lowerS (stripS nl)) then some (idx + 1) else none
          | none => none
        else none
    | none => none

/-! ## Manifest dependency queries (`ModelMetadataService`) -/

/-- A dbt manifest node (the fields `get_model_dependencies` reads). -/
structure MNode where
  name : Str
  resource_type : Str
  depends_on_nodes : List Str
  deriving DecidableEq, Repr

/-- The manifest's `nodes` dict as an association list in insertion order;
keys (node IDs) are unique in a Python dict. -/
abbrev Manifest := List (Str × MNode)

/-- First model node with the given name (the lookup loop shared by
`get_model_by_name` and `get_model_dependencies`). -/
def findModelEntry (nodes : Manifest) (modelName : Str) : Option (Str × MNode) :=
  nodes.find? (fun e => decide (e.2.resource_type = S "model" ∧ e.2.name = modelName))

/-- Python `nodes[dep_node_id]` guarded by `dep_node_id in nodes`. -/
def lookupNode (nodes : Manifest) (nid : Str) : Option MNode :=
  (nodes.find? (fun e => decide (e.1 = nid))).map (·.2)

/-- `ModelMetadataService.get_model_dependencies`: `(upstream, downstream)`. -/
def get_model_dependencies (nodes : Manifest) (modelName : Str) : List Str × List Str :=
  match findModelEntry nodes modelName with
  | none => ([], [])
  | some (tid, tnode) =>
      (tnode.depends_on_nodes.filterMap fun d =>
         match lookupNode nodes d with
         | some dn => if dn.resource_type = S "model" then some dn.name else none
         | none => none,
       nodes.filterMap fun e =>
         if e.2.resource_type = S "model" ∧ e.1 ≠ tid ∧ tid ∈ e.2.depends_on_nodes
         then some e.2.name else none)

/-- Model-node names of a manifest, in node order (`get_all_models`). -/
def modelNames (nodes : Manifest) : List Str :=
  nodes.filterMap fun e =>
    if e.2.resource_type = S "model" then some e.2.name else none

/-! ## Column inference (`ModelMetadataService._parse_select_columns`) -/

/-- `ColumnInfo` (`shared/models.py`). -/
structure ColumnInfo where
  name : Str
  data_type : Str
  description : Option Str := none
  tests : List Str := []
  deriving DecidableEq, Repr

/-- Python `hay.find(needle)` (0-based index of first occurrence; `None`
models `-1`). -/
def findIdx (needle : Str) (hay : Str) : Option Nat :=
  if needle.isPrefixOf hay then some 0
  else
    match hay with
    | [] => none
    | _ :: t => (findIdx needle t).map (· + 1)

/-- Python `hay.find(needle, start)`. -/
def findIdxFrom (needle hay : Str) (start : Nat) : Option Nat :=
  (findIdx needle (hay.drop start)).map (· + start)

/-- Python `l.split(sep)[1]` for a multi-character separator that occurs in
`l` (text between the first and second occurrence, or to the end). -/
def pySplitSecond (sep l : Str) : Str :=
  match findIdx sep l with
  | none => []
  | some i =>
      let rest := l.drop (i + sep.length)
      match findIdx sep rest with
      | none => rest
      | some j => rest.take j

/-- Python `s.split()` with no separator: split on any whitespace character
(runs produce empty pieces, dropped below). -/
def pySplitWs : Str → List Str
  | [] => [[]]
  | c :: cs =>
      if isPySpace c then [] :: pySplitWs cs
      else
        match pySplitWs cs with
        | h :: t => (c :: h) :: t
        | [] => [[c]]

/-- Python `part.split()` (whitespace words, empties dropped). -/
def pyWords (l : Str) : List Str := (pySplitWs l).filter (· ≠ [])

/-- The aggregate-function sniff of `_parse_select_columns`. -/
def hasAggFunc (u : Str) : Bool :=
  [S "COUNT(", S "SUM(", S "AVG(", S "MAX(", S "MIN("].any (fun f => decide (f <:+: u))

/-- `column_name.replace('"', '').replace("'", "").replace('`', '')`. -/
def removeQuotes (l : Str) : Str :=
  l.filter fun c => ¬ (c = dquote ∨ c = apos ∨ c = btick)

/-- `ModelMetadataService._parse_select_columns`. -/
def parse_select_columns (sql : Str) : List ColumnInfo :=
  let sqlUpper := upperS sql
  match findIdx (S "SELECT") sqlUpper with
  | none => []
  | some selectStart =>
      match findIdxFrom (S "FROM") sqlUpper selectStart with
      | none => []
      | some fromStart =>
          let selectClause :=
            stripS ((sql.drop (selectStart + 6)).take (fromStart - (selectStart + 6)))
          ((pySplit ',' selectClause).map stripS).filterMap fun part =>
            if part = [] then none
            else
              let colName0 :=
                if S " AS " <:+: upperS part then stripS (pySplitSecond (S " AS ") (upperS part))
                else if (' ' ∈ part) ∧ ¬ hasAggFunc (upperS part) = true then
                  match (pyWords part).getLast? with
                  | some w => stripS w
                  | none => stripS part
                else stripS part
              let colName := removeQuotes colName0
              if colName ≠ [] ∧ colName ≠ [ '*' ] then
                some { name := colName, data_type := S "unknown",
                       description :=
                         some (S "Inferred from SQL (run dbt docs generate for accurate schema)") }
              else none

/-- Python `a or b` on optional strings (empty string is falsy). -/
def pyOrStr (a b : Option Str) : Option Str :=
  match a with
  | some x => if x ≠ [] then some x else b
  | none => b

/-- `ModelMetadataService._infer_columns_from_compiled_sql`. -/
def infer_columns_from_compiled_sql (compiled_sql raw_sql : Option Str) : List ColumnInfo :=
  match pyOrStr compiled_sql raw_sql with
  | some sql => if sql ≠ [] then parse_select_columns sql else []
  | none => []

/-! ## Spec-side notions used in the claim statements -/

/-- Declaration position of an intent in the source's `intent_patterns` table
(create, join, aggregate, filter, transform); intents that are never scored
sort last. -/
def declIdx : IntentType → Nat
  | .CREATE_MODEL => 0
  | .JOIN_TABLES => 1
  | .AGGREGATE_DATA => 2
  | .FILTER_DATA => 3
  | .TRANSFORM_DATA => 4
  | .EXPLORE_DATA => 5
  | .UNKNOWN => 6

/-- Score of one intent as the claim words it: matching patterns over total
patterns (`0` for intents without a pattern row). -/
def intentScoreOf (it : IntentType) (p : Str) : ℚ :=
  match intentTable.find? (fun row => decide (row.1 = it)) with
  | some row => mkRat (matchCount row.2 p) row.2.length
  | none => 0

/-- The trailing-comma condition exactly as the claim states it: the trimmed
line ends with `,` and the next non-empty line starts with one of
`from|where|group|order|having|)` case-insensitively. -/
def commaClauseSpecB (lines : List Str) (idx : Nat) : Bool :=
  match lines.get? idx with
  | some line =>
      ((stripS line).getLast? = some ',' : Bool) &&
      (match (lines.drop (idx + 1)).find? (fun l => decide (stripS l ≠ [])) with
       | some nl => startsWithClauseKw (lowerS (stripS nl))
       | none => false)
  | none => false

/-- The table references actually used by the synthesis branch taken for an
analysis: the first two for a join with at least two references, otherwise
the first one (if any). -/
def usedRefs (a : PromptAnalysis) : List TableReference :=
  if a.intent = .JOIN_TABLES ∧ 2 ≤ a.table_references.length then
    a.table_references.take 2
  else a.table_references.take 1

/-- `ref('<name>')` — the wrapping whose absence the ref-vs-raw claim
requires for non-model references. -/
def refNeedle (n : Str) : Str := S "ref(" ++ [apos] ++ n ++ [apos, ')']

/-- Identifier characters (`[a-zA-Z0-9_]`), the alphabet of extracted table
names. -/
def isIdentChar (c : Char) : Bool := c.isAlphanum || c = '_'

/-- Dbt materializations (data-model enum of the spec). -/
def dbtMaterializations : List Str := [S "view", S "table", S "incremental", S "ephemeral"]

/-- The condition `validate_generated_sql` actually applies to flag a
trailing comma on line `i`: the stripped line ends with a comma and the
immediately following line contains `from` (case-insensitively, anywhere) or
contains `)` after stripping. -/
def aiCommaSpecB (lines : List Str) (i : Nat) : Bool :=
  match lines.get? i, lines.get? (i + 1) with
  | some line, some next =>
      ((stripS line).getLast? = some ',' : Bool) &&
      (decide (S "from" <:+: lowerS next) || decide (')' ∈ stripS next))
  | _, _ => false

/-- Invariant of one backtracking step of the regex engine: every result has
a rest that is a suffix of the input and a capture that is either the
incoming capture or an infix of the input. -/
def CapInv (m : Str → Option Str → List MRes) : Prop :=
  ∀ s cap r, r ∈ m s cap →
    r.1 <:+ s ∧ (r.2 = cap ∨ ∃ c, r.2 = some c ∧ c <:+: s)

/-! ## Generic list lemmas used throughout -/

theorem infix_cons_split {n : Str} {a : Char} {l : Str} (h : n <:+: a :: l) :
    n <+: a :: l ∨ n <:+: l := by
  obtain ⟨s, t, e⟩ := h
  cases s with
  | nil => exact Or.inl ⟨t, by simpa using e⟩
  | cons x s' =>
      right
      obtain ⟨rfl, e'⟩ : x = a ∧ s' ++ n ++ t = l := by
        constructor
        · have := congrArg (·.head?) e
          simpa using this
        · have := congrArg List.tail e
          simpa using this
      exact ⟨s', t, e'⟩

theorem prefix_append_cons {n A B : Str} {c : Char} (hc : c ∉ n) (h : n <+: A ++ c :: B) :
    n <+: A := by
  induction n generalizing A with
  | nil => exact List.nil_prefix
  | cons x m ih =>
      cases A with
      | nil =>
          obtain ⟨t, e⟩ := h
          simp only [List.nil_append, List.cons_append] at e
          rw [List.cons_eq_cons] at e
          have : c ∈ x :: m := by rw [e.1]; exact List.mem_cons_self c m
          exact absurd this hc
      | cons a A' =>
          obtain ⟨t, e⟩ := h
          simp only [List.cons_append] at e
          rw [List.cons_eq_cons] at e
          obtain ⟨rfl, e'⟩ := e
          obtain ⟨t', ht⟩ := ih (fun hmem => hc (List.mem_cons_of_mem _ hmem)) ⟨t, e'⟩
          exact ⟨t', by rw [List.cons_append, ht]⟩

theorem infix_append_cons {n A B : Str} {c : Char} (hc : c ∉ n) (h : n <:+: A ++ c :: B) :
    n <:+: A ∨ n <:+: B := by
  induction A with
  | nil =>
      simp only [List.nil_append] at h
      rcases infix_cons_split h with hp | hi
      · exact Or.inl ((prefix_append_cons (A := []) hc (by simpa using hp)).isInfix)
      · exact Or.inr hi
  | cons a A' ih =>
      simp only [List.cons_append] at h
      rcases infix_cons_split h with hp | hi
      · have : n <+: (a :: A') ++ c :: B := by simpa using hp
        exact Or.inl (prefix_append_cons hc this).isInfix
      · rcases ih hi with h1 | h2
        · exact Or.inl (h1.trans (List.infix_cons List.infix_rfl))
        · exact Or.inr h2

theorem not_infix_of_mem_not_mem {n h : Str} {c : Char} (hc : c ∈ n) (hh : c ∉ h) :
    ¬ n <:+: h := fun hinf => hh (hinf.subset hc)

theorem infix_append_right_of_head {n A B : Str} {x : Char}
    (hn : n.head? = some x) (hA : x ∉ A) (h : n <:+: A ++ B) : n <:+: B := by
  induction A with
  | nil => simpa using h
  | cons a A' ih =>
      simp only [List.cons_append] at h
      rcases infix_cons_split h with hp | hi
      · cases n with
        | nil => simp at hn
        | cons y m =>
            obtain ⟨t, e⟩ := hp
            have : y = a := by
              simp only [List.cons_append] at e
              injection e
            have hx : x = a := by
              simp only [List.head?] at hn
              injection hn with hn'
              exact hn' ▸ this
            exact absurd (hx ▸ List.mem_cons_self a A') hA
      · exact ih (fun hmem => hA (List.mem_cons_of_mem _ hmem)) hi

theorem infix_append_left_of_last {n A B : Str} {x : Char}
    (hn : n.getLast? = some x) (hB : x ∉ B) (h : n <:+: A ++ B) : n <:+: A := by
  rw [← List.reverse_infix] at h ⊢
  rw [List.reverse_append] at h
  refine infix_append_right_of_head ?_ (by simpa using hB) h
  rw [List.head?_reverse]
  exact hn

/-- A member of the joined line list is an infix of the join. -/
theorem joinWith_infix_of_mem {sep p : Str} {parts : List Str} (h : p ∈ parts) :
    p <:+: joinWith sep parts := by
  induction parts with
  | nil => simp at h
  | cons x xs ih =>
      rcases List.mem_cons.mp h with rfl | hmem
      · cases xs with
        | nil => simp [joinWith]
        | cons y ys => exact ⟨[], sep ++ joinWith sep (y :: ys), by simp [joinWith]⟩
      · cases xs with
        | nil => simp at hmem
        | cons y ys =>
            have := ih hmem
            calc p <:+: joinWith sep (y :: ys) := this
              _ <:+: joinWith sep (x :: y :: ys) :=
                ⟨x ++ sep, [], by simp [joinWith]⟩

/-- A newline-free non-empty infix of joined lines is an infix of one line. -/
theorem infix_joinWith_newline {n : Str} {parts : List Str}
    (hne : n ≠ []) (hnl : '\n' ∉ n) (h : n <:+: joinWith [ '\n' ] parts) :
    ∃ p ∈ parts, n <:+: p := by
  induction parts with
  | nil =>
      rw [joinWith] at h
      exact absurd (List.eq_nil_of_infix_nil h) hne
  | cons x xs ih =>
      cases xs with
      | nil => exact ⟨x, by simp, by simpa [joinWith] using h⟩
      | cons y ys =>
          have h' : n <:+: x ++ '\n' :: joinWith [ '\n' ] (y :: ys) := by
            simpa [joinWith] using h
          rcases infix_append_cons hnl h' with h1 | h2
          · exact ⟨x, by simp, h1⟩
          · obtain ⟨p, hp, hpi⟩ := ih h2
            exact ⟨p, List.mem_cons_of_mem _ hp, hpi⟩

theorem prefix_append_split {p A B : Str} (h : p <+: A ++ B) :
    p <+: A ∨ ∃ q, p = A ++ q ∧ q <+: B := by
  induction A generalizing p with
  | nil => exact Or.inr ⟨p, by simp, by simpa using h⟩
  | cons a A' ih =>
      cases p with
      | nil => exact Or.inl List.nil_prefix
      | cons x m =>
          obtain ⟨t, e⟩ := h
          simp only [List.cons_append] at e
          rw [List.cons_eq_cons] at e
          obtain ⟨rfl, e'⟩ := e
          rcases ih ⟨t, e'⟩ with h1 | ⟨q, rfl, hq⟩
          · obtain ⟨t', ht⟩ := h1
            exact Or.inl ⟨t', by rw [List.cons_append, ht]⟩
          · exact Or.inr ⟨q, by simp, hq⟩

/-- Decomposition of an infix of a concatenation: inside the left part,
inside the right part, or spanning the boundary. -/
theorem infix_append_split {n A B : Str} (h : n <:+: A ++ B) :
    n <:+: A ∨ n <:+: B ∨
      ∃ n1 n2, n = n1 ++ n2 ∧ n1 ≠ [] ∧ n2 ≠ [] ∧ n1 <:+ A ∧ n2 <+: B := by
  induction A with
  | nil => exact Or.inr (Or.inl (by simpa using h))
  | cons a A' ih =>
      simp only [List.cons_append] at h
      rcases infix_cons_split h with hp | hi
      · cases n with
        | nil => exact Or.inl List.nil_infix
        | cons x m =>
            obtain ⟨t, e⟩ := hp
            simp only [List.cons_append] at e
            rw [List.cons_eq_cons] at e
            obtain ⟨rfl, e'⟩ := e
            rcases prefix_append_split (p := m) ⟨t, e'⟩ with h1 | ⟨q, rfl, hq⟩
            · obtain ⟨t', ht⟩ := h1
              exact Or.inl ⟨[], t', by simp [ht]⟩
            · rcases eq_or_ne q [] with rfl | hqne
              · exact Or.inl ⟨[], [], by simp⟩
              · exact Or.inr (Or.inr ⟨x :: A', q, by simp, by simp, hqne,
                  List.suffix_rfl, hq⟩)
      · rcases ih hi with h1 | h2 | ⟨n1, n2, rfl, h3, h4, h5, h6⟩
        · exact Or.inl (h1.trans (List.infix_cons List.infix_rfl))
        · exact Or.inr (Or.inl h2)
        · exact Or.inr (Or.inr ⟨n1, n2, rfl, h3, h4,
            h5.trans (List.suffix_cons a A'), h6⟩)

/-- Splitting two concatenations at the first occurrence of a character:
if neither left part contains it, the decompositions agree. -/
theorem splitFirst_unique {c : Char} {a b x y : Str}
    (ha : c ∉ a) (hb : c ∉ b) (e : a ++ c :: x = b ++ c :: y) : a = b ∧ x = y := by
  induction a generalizing b with
  | nil =>
      cases b with
      | nil => simpa using e
      | cons d b' =>
          simp only [List.nil_append, List.cons_append] at e
          rw [List.cons_eq_cons] at e
          exact absurd (e.1 ▸ List.mem_cons_self d b') hb
  | cons u a' ih =>
      cases b with
      | nil =>
          simp only [List.cons_append, List.nil_append] at e
          rw [List.cons_eq_cons] at e
          have : c ∈ u :: a' := by rw [e.1]; exact List.mem_cons_self c a'
          exact absurd this ha
      | cons d b' =>
          simp only [List.cons_append] at e
          rw [List.cons_eq_cons] at e
          obtain ⟨rfl, e'⟩ := e
          obtain ⟨h1, h2⟩ := ih (fun hm => ha (List.mem_cons_of_mem _ hm))
            (fun hm => hb (List.mem_cons_of_mem _ hm)) e'
          exact ⟨by rw [h1], h2⟩

/-- Every list containing `c` splits at the first occurrence of `c`. -/
theorem exists_first_split {c : Char} {l : Str} (h : c ∈ l) :
    ∃ l1 l2, l = l1 ++ c :: l2 ∧ c ∉ l1 := by
  induction l with
  | nil => simp at h
  | cons a l' ih =>
      rcases eq_or_ne a c with rfl | hne
      · exact ⟨[], l', by simp, by simp⟩
      · have : c ∈ l' := by
          rcases List.mem_cons.mp h with h1 | h1
          · exact absurd h1.symm hne
          · exact h1
        obtain ⟨l1, l2, rfl, hc⟩ := ih this
        refine ⟨a :: l1, l2, by simp, ?_⟩
        intro hm
        rcases List.mem_cons.mp hm with h1 | h1
        · exact hne h1.symm
        · exact hc h1

/-- An apostrophe-quoted word occurring inside a string with exactly one
apostrophe-quoted region must coincide with that region. -/
theorem apos_wrap_eq {name other pre suf : Str}
    (hpre : apos ∉ pre) (hsuf : apos ∉ suf) (hname : apos ∉ name) (hother : apos ∉ other)
    (h : (apos :: (name ++ [apos])) <:+: (pre ++ apos :: (other ++ apos :: suf))) :
    name = other := by
  obtain ⟨s, t, e⟩ := h
  simp only [List.cons_append, List.append_assoc, List.singleton_append,
    List.nil_append] at e
  -- e : s ++ apos :: (name ++ apos :: t) = pre ++ apos :: (other ++ apos :: suf)
  by_cases hs : apos ∈ s
  · obtain ⟨s1, s2, rfl, hs1⟩ := exists_first_split hs
    rw [List.append_assoc, List.cons_append] at e
    obtain ⟨rfl, e2⟩ := splitFirst_unique hs1 hpre e
    by_cases hs2 : apos ∈ s2
    · obtain ⟨s3, s4, rfl, hs3⟩ := exists_first_split hs2
      rw [List.append_assoc, List.cons_append] at e2
      obtain ⟨rfl, e3⟩ := splitFirst_unique hs3 hother e2
      have : apos ∈ suf := by
        rw [← e3]
        exact List.mem_append_right _ (List.mem_cons_self _ _)
      exact absurd this hsuf
    · obtain ⟨rfl, e3⟩ := splitFirst_unique hs2 hother e2
      have : apos ∈ suf := by
        rw [← e3]
        exact List.mem_append_right _ (List.mem_cons_self _ _)
      exact absurd this hsuf
  · obtain ⟨rfl, e2⟩ := splitFirst_unique hs hpre e
    exact (splitFirst_unique hname hother e2).1

/-! ## Regex-engine capture lemmas -/

theorem starAll_capInv {m : Str → Option Str → List MRes} (hm : CapInv m) :
    ∀ (fuel : Nat), CapInv (starAll m fuel) := by
  intro fuel
  induction fuel with
  | zero =>
      intro s cap r hr
      simp [starAll] at hr
      subst hr
      exact ⟨List.suffix_refl s, Or.inl rfl⟩
  | succ fuel ih =>
      intro s cap r hr
      simp only [starAll, List.mem_append, List.mem_flatMap] at hr
      rcases hr with ⟨r1, hr1, hr⟩ | hr
      · by_cases hlt : r1.1.length < s.length
        · rw [if_pos hlt] at hr
          obtain ⟨hs1, hc1⟩ := hm s cap r1 hr1
          obtain ⟨hs, hc⟩ := ih r1.1 r1.2 r hr
          refine ⟨hs.trans hs1, ?_⟩
          rcases hc with hc | ⟨c, hc, hinf⟩
          · rw [hc]
            rcases hc1 with hc1 | ⟨c, hc1, hinf⟩
            · exact Or.inl hc1
            · exact Or.inr ⟨c, hc1, hinf⟩
          · exact Or.inr ⟨c, hc, hinf.trans hs1.isInfix⟩
        · rw [if_neg hlt] at hr
          simp at hr
      · simp at hr
        subst hr
        exact ⟨List.suffix_refl s, Or.inl rfl⟩

/-- Every result of the matcher keeps a suffix rest and an infix capture. -/
theorem mAll_capInv : ∀ (re : RE), CapInv (mAll re) := by
  intro re
  induction re with
  | eps =>
      intro s cap r hr
      simp [mAll] at hr
      subst hr
      exact ⟨List.suffix_refl s, Or.inl rfl⟩
  | cls t =>
      intro s cap r hr
      match s with
      | [] => simp [mAll] at hr
      | c :: cs =>
          simp only [mAll] at hr
          by_cases ht : t.test c
          · rw [if_pos ht] at hr
            simp at hr
            subst hr
            exact ⟨List.suffix_cons c cs, Or.inl rfl⟩
          · rw [if_neg ht] at hr
            simp at hr
  | seq a b iha ihb =>
      intro s cap r hr
      simp only [mAll, List.mem_flatMap] at hr
      obtain ⟨r1, hr1, hr⟩ := hr
      obtain ⟨hs1, hc1⟩ := iha s cap r1 hr1
      obtain ⟨hs, hc⟩ := ihb r1.1 r1.2 r hr
      refine ⟨hs.trans hs1, ?_⟩
      rcases hc with hc | ⟨c, hc, hinf⟩
      · rw [hc]
        rcases hc1 with hc1 | ⟨c, hc1, hinf⟩
        · exact Or.inl hc1
        · exact Or.inr ⟨c, hc1, hinf⟩
      · exact Or.inr ⟨c, hc, hinf.trans hs1.isInfix⟩
  | alt a b iha ihb =>
      intro s cap r hr
      simp only [mAll, List.mem_append] at hr
      rcases hr with hr | hr
      · exact iha s cap r hr
      · exact ihb s cap r hr
  | opt a iha =>
      intro s cap r hr
      simp only [mAll, List.mem_append, List.mem_singleton] at hr
      rcases hr with hr | hr
      · exact iha s cap r hr
      · subst hr
        exact ⟨List.suffix_refl s, Or.inl rfl⟩
  | star a iha =>
      intro s cap r hr
      exact starAll_capInv iha s.length s cap r hr
  | grp a iha =>
      intro s cap r hr
      simp only [mAll, List.mem_map] at hr
      obtain ⟨r1, hr1, hr⟩ := hr
      obtain ⟨hs1, _⟩ := iha s cap r1 hr1
      subst hr
      refine ⟨hs1, Or.inr ⟨_, rfl, ?_⟩⟩
      exact (List.take_prefix _ s).isInfix
  | nla a iha =>
      intro s cap r hr
      simp only [mAll] at hr
      match hma : mAll a s none with
      | [] =>
          rw [hma] at hr
          simp at hr
          subst hr
          exact ⟨List.suffix_refl s, Or.inl rfl⟩
      | _ :: _ =>
          rw [hma] at hr
          simp at hr

theorem searchFuel_cap_infix {re : RE} :
    ∀ {fuel : Nat} {s : Str} {r : MRes} {c : Str},
      searchFuel re fuel s = some r → r.2 = some c → c <:+: s := by
  intro fuel
  induction fuel with
  | zero =>
      intro s r c hs hc
      simp only [searchFuel] at hs
      match hma : mAll re s none with
      | r0 :: _ =>
          rw [hma] at hs
          injection hs with hs
          subst hs
          obtain ⟨_, hcap⟩ := mAll_capInv re s none r0 (by rw [hma]; exact List.mem_cons_self _ _)
          rcases hcap with hcap | ⟨c0, hc0, hinf⟩
          · rw [hcap] at hc; exact absurd hc (by simp)
          · rw [hc0] at hc; injection hc with hc; rw [← hc]; exact hinf
      | [] => rw [hma] at hs; exact absurd hs (by simp)
  | succ fuel ih =>
      intro s r c hs hc
      simp only [searchFuel] at hs
      match hma : mAll re s none with
      | r0 :: _ =>
          rw [hma] at hs
          injection hs with hs
          subst hs
          obtain ⟨_, hcap⟩ := mAll_capInv re s none r0 (by rw [hma]; exact List.mem_cons_self _ _)
          rcases hcap with hcap | ⟨c0, hc0, hinf⟩
          · rw [hcap] at hc; exact absurd hc (by simp)
          · rw [hc0] at hc; injection hc with hc; rw [← hc]; exact hinf
      | [] =>
          rw [hma] at hs
          match s with
          | [] => exact absurd hs (by simp)
          | x :: t =>
              have := ih hs hc
              exact this.trans ((List.suffix_cons x t).isInfix)

/-- A capture produced by `re.search` is an infix of the searched string. -/
theorem searchAll_cap_infix {re : RE} {s : Str} {r : MRes} {c : Str}
    (hs : searchAll re s = some r) (hc : r.2 = some c) : c <:+: s :=
  searchFuel_cap_infix hs hc

/-- A capture returned by the first-pattern-wins scan is an infix of the
scanned string. -/
theorem firstCap_infix : ∀ (pats : List RE) (p c : Str),
    firstCap pats p = some c → c <:+: p := by
  intro pats
  induction pats with
  | nil => intro p c h; simp [firstCap] at h
  | cons pat rest ih =>
      intro p c h
      simp only [firstCap] at h
      match hs : searchAll pat p with
      | some (rest1, some c1) =>
          rw [hs] at h
          injection h with h
          subst h
          exact searchAll_cap_infix hs rfl
      | some (rest1, none) => rw [hs] at h; exact absurd h (by simp)
      | none => rw [hs] at h; exact ih p c h

/-- `Char.toLower` never outputs an ASCII upper-case letter. -/
theorem isUpper_toLower_false (c : Char) : (Char.toLower c).isUpper = false := by
  by_cases h : 65 ≤ c.toNat ∧ c.toNat ≤ 90
  · obtain ⟨h1, h2⟩ := h
    have ht : Char.toLower c = Char.ofNat (c.toNat + 32) := by
      simp only [Char.toLower]
      rw [if_pos ⟨h1, h2⟩]
    rw [ht]
    generalize hn : c.toNat = n
    rw [hn] at h1 h2
    interval_cases n <;> decide
  · have ht : Char.toLower c = c := by
      simp only [Char.toLower]
      rw [if_neg h]
    rw [ht]
    cases hU : c.isUpper
    · rfl
    · exfalso
      apply h
      unfold Char.isUpper at hU
      rw [Bool.and_eq_true, decide_eq_true_eq, decide_eq_true_eq] at hU
      obtain ⟨hU1, hU2⟩ := hU
      constructor
      · have hb := (BitVec.le_def).mp ((UInt32.le_def).mp hU1)
        have e : ((65 : UInt32)).toBitVec.toNat = 65 := by decide
        rw [e] at hb
        exact hb
      · have hb := (BitVec.le_def).mp ((UInt32.le_def).mp hU2)
        have e : ((90 : UInt32)).toBitVec.toNat = 90 := by decide
        rw [e] at hb
        exact hb

/-- Completeness of the position scan: if the regex matches at some suffix
reachable within the fuel, `re.search` finds a match. -/
theorem searchFuel_complete (re : RE) : ∀ (fuel : Nat) (s t : Str),
    t <:+ s → s.length ≤ fuel + t.length → mAll re t none ≠ [] →
    (searchFuel re fuel s).isSome = true := by
  intro fuel
  induction fuel with
  | zero =>
      intro s t hst hlen hne
      have hts : t = s := hst.eq_of_length_le (by omega)
      subst hts
      cases hma : mAll re t none with
      | nil => exact absurd hma hne
      | cons r rs => simp [searchFuel, hma]
  | succ fuel ih =>
      intro s t hst hlen hne
      cases hma : mAll re s none with
      | cons r rs => simp [searchFuel, hma]
      | nil =>
          match s with
          | [] =>
              have ht : t = [] := List.suffix_nil.mp hst
              rw [ht] at hne
              exact absurd hma hne
          | x :: s' =>
              rcases List.suffix_cons_iff.mp hst with heq | hsuf
              · rw [← heq] at hma
                exact absurd hma hne
              · have hres := ih s' t hsuf (by simp at hlen ⊢; omega) hne
                simpa [searchFuel, hma] using hres

theorem joinWith_cons_cons (sep x y : Str) (ys : List Str) :
    joinWith sep (x :: y :: ys) = x ++ sep ++ joinWith sep (y :: ys) := rfl

/-! ## String-search lemmas for the SQL column parser -/

theorem dropWhile_append_eq_self {p : Char → Bool} {l R : Str} (hne : l ≠ [])
    (hl : ∀ c ∈ l, p c = false) : (l ++ R).dropWhile p = l ++ R := by
  cases l with
  | nil => exact absurd rfl hne
  | cons a l' =>
      rw [List.cons_append, List.dropWhile_cons, hl a (List.mem_cons_self a l')]
      simp

theorem stripS_eq_self_of_forall {l : Str} (hl : ∀ c ∈ l, isPySpace c = false) :
    stripS l = l := by
  unfold stripS
  cases l with
  | nil => rfl
  | cons a l' =>
      have h1 : List.dropWhile isPySpace (a :: l') = a :: l' := by
        rw [List.dropWhile_cons, hl a (List.mem_cons_self a l')]
        simp
      rw [h1]
      have h2 : List.dropWhile isPySpace ((a :: l').reverse) = (a :: l').reverse := by
        have hrne : (a :: l').reverse ≠ [] := by simp
        have := dropWhile_append_eq_self (R := []) hrne
          (fun c hc => hl c (List.mem_reverse.mp hc))
        simpa using this
      rw [h2, List.reverse_reverse]

theorem pySplit_single_of_not_mem {sep : Char} {l : Str} (h : sep ∉ l) :
    pySplit sep l = [l] := by
  induction l with
  | nil => rfl
  | cons c cs ih =>
      have hc : c ≠ sep := fun he => h (he ▸ List.mem_cons_self c cs)
      have hcs : sep ∉ cs := fun hm => h (List.mem_cons_of_mem c hm)
      simp only [pySplit]
      rw [if_neg hc, ih hcs]

theorem isPrefixOf_eq_true {l1 l2 : Str} : l1.isPrefixOf l2 = true ↔ l1 <+: l2 :=
  List.isPrefixOf_iff_prefix

theorem findIdx_eq_none_of_no_occurrence (needle : Str) :
    ∀ (hay : Str), ¬ needle <:+: hay → findIdx needle hay = none := by
  intro hay
  induction hay with
  | nil =>
      intro h
      cases needle with
      | nil => exact absurd (List.nil_infix) h
      | cons x m => rfl
  | cons a t ih =>
      intro h
      have hp : ¬ needle.isPrefixOf (a :: t) = true := fun hp =>
        h (isPrefixOf_eq_true.mp hp).isInfix
      unfold findIdx
      rw [if_neg hp]
      show Option.map (fun x => x + 1) (findIdx needle t) = none
      rw [ih (fun hi => h (hi.trans (List.infix_cons List.infix_rfl)))]
      rfl

theorem findIdx_append_eq (needle : Str) :
    ∀ (A B : Str), ¬ needle <:+: A →
      (∀ n1 n2, needle = n1 ++ n2 → n1 ≠ [] → n2 ≠ [] → n1 <:+ A → ¬ n2 <+: B) →
      needle <+: B →
      findIdx needle (A ++ B) = some A.length := by
  intro A
  induction A with
  | nil =>
      intro B _ _ h3
      unfold findIdx
      rw [if_pos (isPrefixOf_eq_true.mpr (by simpa using h3))]
      rfl
  | cons a A' ih =>
      intro B h1 h2 h3
      have hp : ¬ needle.isPrefixOf ((a :: A') ++ B) = true := by
        intro hp
        have hpre := isPrefixOf_eq_true.mp hp
        rcases prefix_append_split hpre with hA | ⟨q, he, hq⟩
        · exact h1 hA.isInfix
        · rcases eq_or_ne q [] with rfl | hqne
          · rw [List.append_nil] at he
            exact h1 (he ▸ List.infix_rfl)
          · exact h2 (a :: A') q he (by simp) hqne List.suffix_rfl hq
      unfold findIdx
      rw [if_neg hp]
      have h1' : ¬ needle <:+: A' := fun hi =>
        h1 (hi.trans (List.infix_cons List.infix_rfl))
      have h2' : ∀ n1 n2, needle = n1 ++ n2 → n1 ≠ [] → n2 ≠ [] → n1 <:+ A' → ¬ n2 <+: B := by
        intro n1 n2 he hn1 hn2 hs
        obtain ⟨u, hu⟩ := hs
        exact h2 n1 n2 he hn1 hn2 ⟨a :: u, by rw [List.cons_append, hu]⟩
      rw [List.cons_append]
      show Option.map (fun x => x + 1) (findIdx needle (A' ++ B)) = some (a :: A').length
      rw [ih B h1' h2' h3]
      simp

theorem getLast_mem_of_suffix {n C : Str} {c : Char} (hne : n ≠ []) (hs : n <:+ C ++ [c]) :
    c ∈ n := by
  obtain ⟨u, hu⟩ := hs
  have h2 := congrArg List.getLast? hu
  rw [List.getLast?_append_of_ne_nil u hne, List.getLast?_concat] at h2
  exact List.mem_of_getLast?_eq_some h2

theorem isPySpace_toUpper (c : Char) : isPySpace (Char.toUpper c) = isPySpace c := by
  by_cases h : 97 ≤ c.toNat ∧ c.toNat ≤ 122
  · obtain ⟨h1, h2⟩ := h
    have ht : Char.toUpper c = Char.ofNat (c.toNat - 32) := by
      simp only [Char.toUpper]
      rw [if_pos ⟨h1, h2⟩]
    rw [ht, ← Char.ofNat_toNat c]
    generalize hn : c.toNat = n
    rw [hn] at h1 h2
    interval_cases n <;> decide
  · have ht : Char.toUpper c = c := by
      simp only [Char.toUpper]
      rw [if_neg h]
    rw [ht]

/-! ## Needle lemmas for the ref-vs-raw claim -/

theorem apos_mem_refNeedle (t : Str) : apos ∈ refNeedle t := by
  unfold refNeedle
  exact List.mem_append_left _ (List.mem_append_left _ (List.mem_append_right _ (by decide)))

theorem paren_mem_refNeedle (t : Str) : '(' ∈ refNeedle t := by
  unfold refNeedle
  exact List.mem_append_left _ (List.mem_append_left _ (List.mem_append_left _ (by decide)))

theorem needle_kill_apos {t line : Str} (h : apos ∉ line) : ¬ refNeedle t <:+: line :=
  not_infix_of_mem_not_mem (apos_mem_refNeedle t) h

theorem needle_kill_paren {t line : Str} (h : '(' ∉ line) : ¬ refNeedle t <:+: line :=
  not_infix_of_mem_not_mem (paren_mem_refNeedle t) h

theorem refP_prefix_needle (t : Str) : S "ref(" <+: refNeedle t := by
  refine ⟨[apos] ++ t ++ [apos, ')'], ?_⟩
  unfold refNeedle
  simp [List.append_assoc]

theorem needle_kill_frag {t pad g suf : Str} (hpad : 'r' ∉ pad) (hsuf : '(' ∉ suf)
    (hfrag : ¬ S "ref(" <:+: g) : ¬ refNeedle t <:+: pad ++ (g ++ suf) := by
  intro h
  have h4 : S "ref(" <:+: pad ++ (g ++ suf) := (refP_prefix_needle t).isInfix.trans h
  have h5 : S "ref(" <:+: g ++ suf := infix_append_right_of_head rfl hpad h4
  have h6 : S "ref(" <:+: g := infix_append_left_of_last rfl hsuf h5
  exact hfrag h6

theorem needle_kill_frag0 {t pad g : Str} (hpad : 'r' ∉ pad) (hfrag : ¬ S "ref(" <:+: g) :
    ¬ refNeedle t <:+: pad ++ g := by
  have := @needle_kill_frag t pad g [] hpad (by simp) hfrag
  rwa [List.append_nil] at this

theorem needle_kill_wrap {t u pre suf : Str}
    (hpre : apos ∉ pre) (hsuf : apos ∉ suf) (ht : apos ∉ t) (hu : apos ∉ u) (htu : t ≠ u) :
    ¬ refNeedle t <:+: pre ++ apos :: (u ++ apos :: suf) := by
  intro h
  have hsub : (apos :: (t ++ [apos])) <:+: refNeedle t := by
    refine ⟨S "ref(", [')'], ?_⟩
    unfold refNeedle
    simp [List.append_assoc]
  exact htu (apos_wrap_eq hpre hsuf ht hu (hsub.trans h))

theorem not_mem_of_ident {n : Str} {c : Char} (h : ∀ x ∈ n, isIdentChar x = true)
    (hc : isIdentChar c = false) : c ∉ n := by
  intro hm
  rw [h c hm] at hc
  exact Bool.noConfusion hc

theorem apos_not_mem_append {X n : Str} (hX : apos ∉ X) (hn : apos ∉ n) : apos ∉ X ++ n := by
  intro h
  rcases List.mem_append.mp h with h | h
  · exact hX h
  · exact hn h

theorem newline_not_mem_needle {t : Str} (h : ∀ c ∈ t, isIdentChar c = true) :
    '\n' ∉ refNeedle t := by
  intro hm
  unfold refNeedle at hm
  rcases List.mem_append.mp hm with hm | hm
  · rcases List.mem_append.mp hm with hm | hm
    · rcases List.mem_append.mp hm with hm | hm
      · exact absurd hm (by decide)
      · exact absurd hm (by decide)
    · exact absurd (h _ hm) (by decide)
  · exact absurd hm (by decide)

theorem refNeedle_ne_nil (t : Str) : refNeedle t ≠ [] := by
  intro h
  have hl := congrArg List.length h
  simp only [refNeedle, List.length_append, List.length_nil] at hl
  rw [show (S "ref(").length = 4 from rfl, show ([apos] : Str).length = 1 from rfl,
      show ([apos, ')'] : Str).length = 2 from rfl] at hl
  omega

theorem mem_filterLines {p : Str} {fs : List Str} (h : p ∈ filterLines fs) :
    ∃ g ∈ fs, p = S "    " ++ g ∨ p = S "    and " ++ g := by
  cases fs with
  | nil => simp [filterLines] at h
  | cons f rest =>
      simp only [filterLines, List.mem_cons, List.mem_map] at h
      rcases h with rfl | ⟨g, hg, rfl⟩
      · exact ⟨f, List.mem_cons_self _ _, Or.inl rfl⟩
      · exact ⟨g, List.mem_cons_of_mem _ hg, Or.inr rfl⟩

theorem mem_stripLastComma {p : Str} {lines : List Str} (h : p ∈ stripLastComma lines) :
    p ∈ lines ∨ ∃ q ∈ lines, p = q.dropLast := by
  unfold stripLastComma at h
  cases hl : lines.getLast? with
  | none => simp only [hl] at h; exact Or.inl h
  | some l =>
      simp only [hl] at h
      by_cases hc : l.getLast? = some ','
      · rw [if_pos hc] at h
        rcases List.mem_append.mp h with h1 | h1
        · exact Or.inl ((List.dropLast_sublist lines).subset h1)
        · rw [List.mem_singleton] at h1
          exact Or.inr ⟨l, List.mem_of_getLast?_eq_some hl, h1⟩
      · rw [if_neg hc] at h
        exact Or.inl h

theorem needle_kill_dropLast {t q : Str} (h : ¬ refNeedle t <:+: q) :
    ¬ refNeedle t <:+: q.dropLast := by
  intro hi
  exact h (hi.trans (List.dropLast_prefix q).isInfix)

theorem mem_stripLastComma_of_mem_dropLast {q : Str} {lines : List Str}
    (h : q ∈ lines.dropLast) : q ∈ stripLastComma lines := by
  unfold stripLastComma
  cases hl : lines.getLast? with
  | none => exact (List.dropLast_sublist lines).subset h
  | some l =>
      show q ∈ (if l.getLast? = some ',' then lines.dropLast ++ [l.dropLast] else lines)
      by_cases hc : l.getLast? = some ','
      · rw [if_pos hc]
        exact List.mem_append_left _ h
      · rw [if_neg hc]
        exact (List.dropLast_sublist lines).subset h

theorem configParts_safe (a : PromptAnalysis) (hmat : a.materialization ∈ dbtMaterializations)
    (t : Str) : ∀ p ∈ configParts a, ¬ refNeedle t <:+: p := by
  intro p hp
  simp only [dbtMaterializations, List.mem_cons, List.not_mem_nil, or_false] at hmat
  unfold configParts at hp
  rcases hmat with hm | hm | hm | hm <;> rw [hm] at hp
  · rw [if_neg (by decide)] at hp
    simp at hp
  all_goals rw [if_pos (by decide)] at hp
  all_goals simp only [List.mem_cons, List.not_mem_nil, or_false] at hp
  all_goals rcases hp with rfl | rfl | rfl | rfl | rfl | rfl
  all_goals first
    | exact needle_kill_apos (by decide)
    | exact needle_kill_paren (by decide)

theorem needle_kill_refLine {tn : Str} {u : TableReference} (pre : Str)
    (hpre : apos ∉ pre) (htn : apos ∉ tn) (hun : apos ∉ u.name)
    (hne : u.is_model = true → tn ≠ u.name) :
    ¬ refNeedle tn <:+: pre ++ refStrOf u := by
  by_cases hm : u.is_model = true
  · rw [refStrOf, if_pos hm]
    have he : pre ++ refWrap u.name =
        (pre ++ S "\x7b\x7b ref(") ++ apos :: (u.name ++ apos :: S ") \x7d\x7d") := by
      unfold refWrap
      simp [List.append_assoc]
    rw [he]
    exact needle_kill_wrap (apos_not_mem_append hpre (by decide)) (by decide) htn hun (hne hm)
  · rw [refStrOf, if_neg hm]
    exact needle_kill_apos (apos_not_mem_append hpre hun)

theorem needle_kill_jtline {tn jt : Str}
    (hj : jt ∈ [S "inner", S "left", S "right", S "full"]) :
    ¬ refNeedle tn <:+: S "  " ++ jt ++ S " join right_table" := by
  simp only [List.mem_cons, List.not_mem_nil, or_false] at hj
  rcases hj with h | h | h | h <;> rw [h] <;> exact needle_kill_apos (by decide)

/-! ## Claim theorems -/

/-- C7: for an analysis with no table references, unknown intent, default
`view` materialization and no output name, synthesis succeeds and emits
exactly the three-line placeholder, with model name `generated_model`. -/
theorem c7_empty_refs_placeholder (a : PromptAnalysis)
    (h1 : a.table_references = []) (h2 : a.intent = .UNKNOWN)
    (h3 : a.materialization = S "view") (h4 : a.output_name = none) :
    (mock_kiro_ai_generation a).sql =
      S "-- No table references found in prompt\n-- Please specify which tables or models to use\nselect 1 as placeholder" ∧
    (mock_kiro_ai_generation a).model_name = S "generated_model" := by
  constructor
  · show joinWith [ '\n' ] (configParts a ++ generateBody a) = _
    rw [show configParts a = [] by simp [configParts, h3],
        show generateBody a = generate_simple_select_sql a by simp [generateBody, h2],
        show generate_simple_select_sql a =
          [S "-- No table references found in prompt",
           S "-- Please specify which tables or models to use",
           S "select 1 as placeholder"] by rw [generate_simple_select_sql, h1]]
    decide
  · show (match a.output_name with
      | some n => if n ≠ [] then n else generate_model_name a
      | none => generate_model_name a) = _
    rw [h4, generate_model_name, h1]

/-- Witness for C7 at a concrete empty analysis. -/
theorem c7_witness :
    (mock_kiro_ai_generation
      { intent := .UNKNOWN, confidence := 0, table_references := [],
        join_requirements := [], filters := [], aggregations := [],
        transformations := [], context_models := [] }).sql =
      S "-- No table references found in prompt\n-- Please specify which tables or models to use\nselect 1 as placeholder" ∧
    (mock_kiro_ai_generation
      { intent := .UNKNOWN, confidence := 0, table_references := [],
        join_requirements := [], filters := [], aggregations := [],
        transformations := [], context_models := [] }).model_name =
      S "generated_model" :=
  c7_empty_refs_placeholder _ rfl rfl rfl rfl

/-- C5: upstream membership is symmetric with downstream membership in
`get_model_dependencies`, for any manifest whose model nodes have pairwise
distinct names (the data-model invariant `name: unique within a project`,
here phrased as injectivity of the name on model entries). -/
theorem c5_dependency_symmetry (nodes : Manifest) (A B : Str × MNode)
    (hinj : ∀ e1 ∈ nodes, ∀ e2 ∈ nodes,
      e1.2.resource_type = S "model" → e2.2.resource_type = S "model" →
      e1.2.name = e2.2.name → e1 = e2)
    (hA : A ∈ nodes) (hB : B ∈ nodes)
    (hAm : A.2.resource_type = S "model") (hBm : B.2.resource_type = S "model")
    (hAB : A.1 ≠ B.1)
    (hup : B.2.name ∈ (get_model_dependencies nodes A.2.name).1) :
    A.2.name ∈ (get_model_dependencies nodes B.2.name).2 := by
  have findEntry : ∀ E ∈ nodes, E.2.resource_type = S "model" →
      findModelEntry nodes E.2.name = some E := by
    intro E hE hEm
    have hsome : (nodes.find? (fun e =>
        decide (e.2.resource_type = S "model" ∧ e.2.name = E.2.name))).isSome := by
      rw [List.find?_isSome]
      exact ⟨E, hE, by simp [hEm]⟩
    obtain ⟨e, he⟩ := Option.isSome_iff_exists.mp hsome
    have hpe := List.find?_some he
    simp only [decide_eq_true_eq] at hpe
    have hmem := List.mem_of_find?_eq_some he
    have : e = E := hinj e hmem E hE hpe.1 hEm hpe.2
    rw [this] at he
    exact he
  have findA := findEntry A hA hAm
  have findB := findEntry B hB hBm
  have hup' : B.2.name ∈ A.2.depends_on_nodes.filterMap (fun d =>
      match lookupNode nodes d with
      | some dn => if dn.resource_type = S "model" then some dn.name else none
      | none => none) := by
    unfold get_model_dependencies at hup
    rw [findA] at hup
    exact hup
  obtain ⟨d, hd, hfd⟩ := List.mem_filterMap.mp hup'
  have hdB : d = B.1 := by
    cases hl : lookupNode nodes d with
    | none => rw [hl] at hfd; simp at hfd
    | some dn =>
        rw [hl] at hfd
        by_cases hdn : dn.resource_type = S "model"
        · have hdnB : dn.name = B.2.name := by
            simpa [hdn] using hfd
          obtain ⟨e, hee, he2⟩ : ∃ e, nodes.find? (fun e => decide (e.1 = d)) = some e ∧ e.2 = dn := by
            unfold lookupNode at hl
            obtain ⟨e, h1, h2⟩ := Option.map_eq_some'.mp hl
            exact ⟨e, h1, h2⟩
          have hpd := List.find?_some hee
          simp only [decide_eq_true_eq] at hpd
          have hmem := List.mem_of_find?_eq_some hee
          have heB : e = B := by
            refine hinj e hmem B hB ?_ hBm ?_
            · rw [he2]; exact hdn
            · rw [he2]; exact hdnB
          rw [← hpd, heB]
        · simp [hdn] at hfd
  unfold get_model_dependencies
  rw [findB]
  refine List.mem_filterMap.mpr ⟨A, hA, ?_⟩
  rw [if_pos ⟨hAm, hAB, hdB ▸ hd⟩]

/-- Witness for C5 at a two-node manifest where `b` depends on nothing and
`a` depends on `b`. -/
theorem c5_witness :
    S "a" ∈ (get_model_dependencies
      [(S "model.p.a", ⟨S "a", S "model", [S "model.p.b"]⟩),
       (S "model.p.b", ⟨S "b", S "model", []⟩)] (S "b")).2 := by
  have := c5_dependency_symmetry
    [(S "model.p.a", ⟨S "a", S "model", [S "model.p.b"]⟩),
     (S "model.p.b", ⟨S "b", S "model", []⟩)]
    (S "model.p.a", ⟨S "a", S "model", [S "model.p.b"]⟩)
    (S "model.p.b", ⟨S "b", S "model", []⟩)
    (by decide) (by decide) (by decide) (by decide) (by decide) (by decide)
    (by decide)
  exact this

/-- C2 counterexample: for the prompt
`"create a model that joins customers with orders"` the classifier returns
`create_model` (the join patterns require whitespace right after the literal
`join`, which `joins` does not provide), not `join_tables`; and the extracted
table references are not `["customers", "orders"]` — with an empty manifest
they are `["that", "orders", "a"]`, and even with `customers` and `orders` as
known models they are `["that", "orders", "a", "customers"]`. -/
theorem c2_counterexample :
    (analyze_prompt [] (S "create a model that joins customers with orders")).intent =
      .CREATE_MODEL ∧
    IntentType.CREATE_MODEL ≠ IntentType.JOIN_TABLES ∧
    (analyze_prompt [S "customers", S "orders"]
      (S "create a model that joins customers with orders")).intent = .CREATE_MODEL ∧
    (analyze_prompt [] (S "create a model that joins customers with orders")).table_references.map
      TableReference.name ≠ [S "customers", S "orders"] ∧
    (analyze_prompt [S "customers", S "orders"]
      (S "create a model that joins customers with orders")).table_references.map
      TableReference.name ≠ [S "customers", S "orders"] ∧
    ¬ (S "left_table as (" <:+:
        (mock_kiro_ai_generation
          (analyze_prompt [] (S "create a model that joins customers with orders"))).sql) := by
  decide

/-- C2 (amended): for the prompt
`"create a model that joins customers with orders"` the pipeline classifies
the intent as `create_model` with confidence `1/5`, extracts table references
`["that", "orders", "a"]` for an empty manifest (and additionally
`"customers"`, via the known-model scan, when `customers` and `orders` are
manifest models), extracts output name `"that"`, and synthesizes exactly
`select * from that` (so none of the join-skeleton fragments appear). -/
theorem c2_amended :
    (analyze_prompt [] (S "create a model that joins customers with orders")).intent =
      .CREATE_MODEL ∧
    (analyze_prompt [] (S "create a model that joins customers with orders")).confidence =
      mkRat 1 5 ∧
    (analyze_prompt [] (S "create a model that joins customers with orders")).table_references.map
      TableReference.name = [S "that", S "orders", S "a"] ∧
    (analyze_prompt [S "customers", S "orders"]
      (S "create a model that joins customers with orders")).table_references.map
      TableReference.name = [S "that", S "orders", S "a", S "customers"] ∧
    (analyze_prompt [] (S "create a model that joins customers with orders")).output_name =
      some (S "that") ∧
    (mock_kiro_ai_generation
      (analyze_prompt [] (S "create a model that joins customers with orders"))).sql =
      S "select * from that" ∧
    (mock_kiro_ai_generation
      (analyze_prompt [S "customers", S "orders"]
        (S "create a model that joins customers with orders"))).sql =
      S "select * from that" ∧
    (mock_kiro_ai_generation
      (analyze_prompt [] (S "create a model that joins customers with orders"))).model_name =
      S "that" := by
  decide

/-- C6 counterexample: on `"select a,\nb from t"`,
`KiroAIService.validate_generated_sql` emits a trailing-comma warning for
line 1, although the next non-empty line `"b from t"` does not start with any
of the clause keywords — the claim's condition is false there. -/
theorem c6_counterexample :
    aiCommaWarnLines (S "select a,\nb from t") = [1] ∧
    commaClauseSpecB (pySplit '\n' (S "select a,\nb from t")) 0 = false := by
  decide

/-- C6 (amended): the claimed trailing-comma condition (next **non-empty**
line **starts** with `from|where|group|order|having|)`) characterizes exactly
the warnings of `ModelFileManager._validate_sql_content`;
`KiroAIService.validate_generated_sql` instead flags a comma line whenever
the **immediately** following line contains `from` anywhere or contains `)`. -/
theorem c6_amended (content : Str) (idx : Nat) :
    ((idx + 1) ∈ fmCommaWarnLines content ↔
      commaClauseSpecB (pySplit '\n' content) idx = true) ∧
    ((idx + 1) ∈ aiCommaWarnLines content ↔
      aiCommaSpecB (pySplit '\n' content) idx = true) := by
  constructor
  · constructor
    · intro hmem
      obtain ⟨i, hir, hf⟩ := List.mem_filterMap.mp hmem
      split at hf
      next line hg =>
        split at hf
        next h1 =>
          split at hf
          next nl hfind =>
            split at hf
            next h2 =>
              have hi : i = idx := by
                have h12 : i + 1 = idx + 1 := by injection hf
                omega
              subst hi
              have hg' : (pySplit '\n' content)[i]? = some line := by
                rw [← List.get?_eq_getElem?]; exact hg
              simp only [ne_eq, decide_not] at hfind
              simp [commaClauseSpecB, hg', hfind, h1, h2]
            next h2 => simp at hf
          next hfind => simp at hf
        next h1 => simp at hf
      next hg => simp at hf
    · intro hspec
      unfold commaClauseSpecB at hspec
      split at hspec
      next line hg =>
        rw [Bool.and_eq_true] at hspec
        obtain ⟨h1, h2⟩ := hspec
        split at h2
        next nl hfind =>
          refine List.mem_filterMap.mpr ⟨idx, ?_, ?_⟩
          · rw [List.mem_range]
            exact (List.get?_eq_some.mp hg).1
          · simp only [hg]
            rw [if_pos (of_decide_eq_true h1)]
            simp only [hfind]
            rw [if_pos h2]
        next hfind => simp at h2
      next hg => simp at hspec
  · constructor
    · intro hmem
      obtain ⟨i, hir, hf⟩ := List.mem_filterMap.mp hmem
      split at hf
      next line nxt hg hg2 =>
        split at hf
        next hc =>
          have hi : i = idx := by
            have h12 : i + 1 = idx + 1 := by injection hf
            omega
          subst hi
          have hg' : (pySplit '\n' content)[i]? = some line := by
            rw [← List.get?_eq_getElem?]; exact hg
          have hg2' : (pySplit '\n' content)[i + 1]? = some nxt := by
            rw [← List.get?_eq_getElem?]; exact hg2
          rcases hc.2 with hor | hor <;> simp [aiCommaSpecB, hg', hg2', hc.1, hor]
        next hc => simp at hf
      all_goals simp at hf
    · intro hspec
      unfold aiCommaSpecB at hspec
      split at hspec
      next line nxt hg hg2 =>
        simp only [Bool.and_eq_true, Bool.or_eq_true, decide_eq_true_eq] at hspec
        refine List.mem_filterMap.mpr ⟨idx, ?_, ?_⟩
        · rw [List.mem_range]
          exact (List.get?_eq_some.mp hg).1
        · simp only [hg, hg2]
          rw [if_pos ⟨hspec.1, hspec.2⟩]
      all_goals simp at hspec

/-- Witness for C6 (amended) at concrete inputs: `_validate_sql_content`
flags line 1 of `"select a,\n\nfrom t"`, and `validate_generated_sql` flags
line 1 of `"select a,\nb from t"`. -/
theorem c6_amended_witness :
    (0 + 1) ∈ fmCommaWarnLines (S "select a,\n\nfrom t") ∧
    (0 + 1) ∈ aiCommaWarnLines (S "select a,\nb from t") :=
  ⟨(c6_amended (S "select a,\n\nfrom t") 0).1.mpr (by decide),
   (c6_amended (S "select a,\nb from t") 0).2.mpr (by decide)⟩

/-! ## C1: intent classifier -/

theorem pickBest_unfold (b y : IntentType × ℚ) (ys : List (IntentType × ℚ)) :
    pickBest b (y :: ys) = pickBest (if b.2 < y.2 then y else b) ys := rfl

theorem pickBest_ge_init : ∀ (l : List (IntentType × ℚ)) (b : IntentType × ℚ),
    b.2 ≤ (pickBest b l).2 := by
  intro l
  induction l with
  | nil => intro b; exact le_refl _
  | cons y ys ih =>
      intro b
      rw [pickBest_unfold]
      by_cases hby : b.2 < y.2
      · rw [if_pos hby]
        exact le_of_lt (lt_of_lt_of_le hby (ih y))
      · rw [if_neg hby]
        exact ih b

theorem pickBest_ge_mem : ∀ (l : List (IntentType × ℚ)) (b z : IntentType × ℚ),
    z ∈ l → z.2 ≤ (pickBest b l).2 := by
  intro l
  induction l with
  | nil => intro b z hz; simp at hz
  | cons y ys ih =>
      intro b z hz
      rw [pickBest_unfold]
      rcases List.mem_cons.mp hz with rfl | hz'
      · by_cases hby : b.2 < z.2
        · rw [if_pos hby]; exact pickBest_ge_init ys z
        · rw [if_neg hby]
          exact le_trans (le_of_not_lt hby) (pickBest_ge_init ys b)
      · by_cases hby : b.2 < y.2
        · rw [if_pos hby]; exact ih y z hz'
        · rw [if_neg hby]; exact ih b z hz'

theorem pickBest_mem : ∀ (l : List (IntentType × ℚ)) (b : IntentType × ℚ),
    pickBest b l = b ∨ pickBest b l ∈ l := by
  intro l
  induction l with
  | nil => intro b; exact Or.inl rfl
  | cons y ys ih =>
      intro b
      rw [pickBest_unfold]
      by_cases hby : b.2 < y.2
      · rw [if_pos hby]
        rcases ih y with h | h
        · exact Or.inr (by rw [h]; exact List.mem_cons_self y ys)
        · exact Or.inr (List.mem_cons_of_mem _ h)
      · rw [if_neg hby]
        rcases ih b with h | h
        · exact Or.inl h
        · exact Or.inr (List.mem_cons_of_mem _ h)

/-- `pickBest` (Python `max`, which keeps the first maximum) picks the
earliest maximal element of a list sorted by declaration index. -/
theorem pickBest_tie : ∀ (l : List (IntentType × ℚ)) (b : IntentType × ℚ),
    (b :: l).Pairwise (fun u v => declIdx u.1 < declIdx v.1) →
    ∀ z ∈ b :: l, z.2 = (pickBest b l).2 → declIdx (pickBest b l).1 ≤ declIdx z.1 := by
  intro l
  induction l with
  | nil =>
      intro b _ z hz hz2
      rcases List.mem_cons.mp hz with h | h
      · rw [h]; exact le_refl _
      · simp at h
  | cons y ys ih =>
      intro b hsort z hz hz2
      obtain ⟨hb, hyys⟩ := List.pairwise_cons.mp hsort
      obtain ⟨hy, hys⟩ := List.pairwise_cons.mp hyys
      rw [pickBest_unfold] at hz2 ⊢
      by_cases hby : b.2 < y.2
      · rw [if_pos hby] at hz2 ⊢
        rcases List.mem_cons.mp hz with h | hz'
        · exfalso
          have h1 : y.2 ≤ (pickBest y ys).2 := pickBest_ge_init ys y
          rw [← hz2, h] at h1
          exact absurd (lt_of_lt_of_le hby h1) (lt_irrefl _)
        · exact ih y hyys z hz' hz2
      · rw [if_neg hby] at hz2 ⊢
        have hsort' : (b :: ys).Pairwise (fun u v => declIdx u.1 < declIdx v.1) :=
          List.pairwise_cons.mpr ⟨fun w hw => hb w (List.mem_cons_of_mem _ hw), hys⟩
        rcases List.mem_cons.mp hz with h | hz'
        · rw [h]
          rw [h] at hz2
          exact ih b hsort' b (List.mem_cons_self _ _) hz2
        · rcases List.mem_cons.mp hz' with h | hz''
          · have h1 : b.2 ≤ (pickBest b ys).2 := pickBest_ge_init ys b
            have h3 : (pickBest b ys).2 ≤ b.2 := by
              rw [← hz2, h]
              exact le_of_not_lt hby
            have hbr : b.2 = (pickBest b ys).2 := le_antisymm h1 h3
            have h4 := ih b hsort' b (List.mem_cons_self _ _) hbr
            rw [h]
            exact le_trans h4 (le_of_lt (hb y (List.mem_cons_self _ _)))
          · exact ih b hsort' z (List.mem_cons_of_mem _ hz'') hz2

theorem mkRat_nat_nonneg (m n : Nat) : 0 ≤ mkRat m n :=
  Rat.mkRat_nonneg (Int.ofNat_nonneg m) n

theorem mkRat_nat_le_one {m n : Nat} (h : m ≤ n) : mkRat m n ≤ 1 := by
  rcases Nat.eq_zero_or_pos n with rfl | hn
  · simp [Rat.mkRat_eq_div]
  · rw [Rat.mkRat_eq_div]
    rw [div_le_one (by exact_mod_cast hn)]
    exact_mod_cast h

theorem mkRat_nat_pos {m n : Nat} (hm : 0 < m) (hn : 0 < n) : 0 < mkRat m n := by
  rw [Rat.mkRat_eq_div]
  have h1 : (0 : ℚ) < (m : ℚ) := by exact_mod_cast hm
  have h2 : (0 : ℚ) < (n : ℚ) := by exact_mod_cast hn
  positivity

theorem mem_intentScores {p : Str} {z : IntentType × ℚ} (h : z ∈ intentScores p) :
    ∃ pats, (z.1, pats) ∈ intentTable ∧
      z.2 = mkRat (matchCount pats p) pats.length ∧ matchCount pats p ≠ 0 := by
  obtain ⟨row, hrow, hf⟩ := List.mem_filterMap.mp h
  by_cases hm : matchCount row.2 p > 0
  · rw [if_pos hm] at hf
    injection hf with hf'
    refine ⟨row.2, ?_, ?_, ?_⟩
    · rw [← hf']
      simpa using hrow
    · rw [← hf']
    · omega
  · rw [if_neg hm] at hf
    simp at hf

theorem intentScores_mem_of {p : Str} {it : IntentType} {pats : List RE}
    (hrow : (it, pats) ∈ intentTable) (hm : matchCount pats p ≠ 0) :
    (it, mkRat (matchCount pats p) pats.length) ∈ intentScores p :=
  List.mem_filterMap.mpr ⟨(it, pats), hrow, by rw [if_pos (Nat.pos_of_ne_zero hm)]⟩

theorem intentScoreOf_row {p : Str} {it : IntentType} {pats : List RE}
    (hrow : (it, pats) ∈ intentTable) :
    intentScoreOf it p = mkRat (matchCount pats p) pats.length := by
  have h5 : (it, pats) = (IntentType.CREATE_MODEL, createPats) ∨
      (it, pats) = (IntentType.JOIN_TABLES, joinPats) ∨
      (it, pats) = (IntentType.AGGREGATE_DATA, aggregatePats) ∨
      (it, pats) = (IntentType.FILTER_DATA, filterPats) ∨
      (it, pats) = (IntentType.TRANSFORM_DATA, transformPats) := by
    simpa [intentTable] using hrow
  rcases h5 with h | h | h | h | h <;>
    (rw [Prod.mk.injEq] at h; rw [h.1, h.2]) <;> rfl

theorem intentScoreOf_none {p : Str} {it : IntentType}
    (h : it = .EXPLORE_DATA ∨ it = .UNKNOWN) : intentScoreOf it p = 0 := by
  rcases h with rfl | rfl <;> rfl

theorem intentTable_pairwise :
    intentTable.Pairwise (fun u v => declIdx u.1 < declIdx v.1) := by
  decide

theorem intentScores_pairwise (p : Str) :
    (intentScores p).Pairwise (fun u v => declIdx u.1 < declIdx v.1) := by
  have key : ∀ (l : List (IntentType × List RE)),
      l.Pairwise (fun u v => declIdx u.1 < declIdx v.1) →
      (l.filterMap fun it =>
        let m := matchCount it.2 p
        if m > 0 then some (it.1, mkRat m it.2.length) else none).Pairwise
        (fun u v => declIdx u.1 < declIdx v.1) := by
    intro l hl
    induction l with
    | nil => simp
    | cons a l' ih =>
        obtain ⟨ha, hl'⟩ := List.pairwise_cons.mp hl
        rw [List.filterMap_cons]
        cases hfa : (let m := matchCount a.2 p
            if m > 0 then some (a.1, mkRat m a.2.length) else none) with
        | none => exact ih hl'
        | some b =>
            refine List.pairwise_cons.mpr ⟨?_, ih hl'⟩
            intro z hz
            obtain ⟨row, hrow, hfz⟩ := List.mem_filterMap.mp hz
            have hb1 : b.1 = a.1 := by
              simp only at hfa
              by_cases hm : matchCount a.2 p > 0
              · rw [if_pos hm] at hfa
                injection hfa with h'
                rw [← h']
              · rw [if_neg hm] at hfa; simp at hfa
            have hz1 : z.1 = row.1 := by
              simp only at hfz
              by_cases hm : matchCount row.2 p > 0
              · rw [if_pos hm] at hfz
                injection hfz with h'
                rw [← h']
              · rw [if_neg hm] at hfz; simp at hfz
            rw [hb1, hz1]
            exact ha row hrow
  exact key intentTable intentTable_pairwise

theorem intentTable_len_pos : ∀ row ∈ intentTable, 0 < row.2.length := by
  intro row hrow
  rcases (by simpa [intentTable] using hrow :
    row = (IntentType.CREATE_MODEL, createPats) ∨
    row = (IntentType.JOIN_TABLES, joinPats) ∨
    row = (IntentType.AGGREGATE_DATA, aggregatePats) ∨
    row = (IntentType.FILTER_DATA, filterPats) ∨
    row = (IntentType.TRANSFORM_DATA, transformPats)) with h | h | h | h | h <;>
    (rw [h]; decide)

theorem intentScoreOf_cases (it : IntentType) (p : Str) :
    intentScoreOf it p = 0 ∨
    ∃ pats, (it, pats) ∈ intentTable ∧
      intentScoreOf it p = mkRat (matchCount pats p) pats.length := by
  cases it
  case CREATE_MODEL => exact Or.inr ⟨createPats, by simp [intentTable], rfl⟩
  case JOIN_TABLES => exact Or.inr ⟨joinPats, by simp [intentTable], rfl⟩
  case AGGREGATE_DATA => exact Or.inr ⟨aggregatePats, by simp [intentTable], rfl⟩
  case FILTER_DATA => exact Or.inr ⟨filterPats, by simp [intentTable], rfl⟩
  case TRANSFORM_DATA => exact Or.inr ⟨transformPats, by simp [intentTable], rfl⟩
  case EXPLORE_DATA => exact Or.inl rfl
  case UNKNOWN => exact Or.inl rfl

theorem mkRat_zero_num (n : Nat) : mkRat (0 : Nat) n = 0 := by
  rw [Rat.mkRat_eq_div]
  simp

/-- C1: the intent classifier returns, for the winning intent, confidence
equal to (number of its patterns matching the prompt) / (its total pattern
count), always in `[0, 1]`; the winner has the maximum score over all
intents, ties broken by declaration order (create, join, aggregate, filter,
transform); and when no pattern of any intent matches, the result is
`(unknown, 0)`. -/
theorem c1_intent_classifier (p : Str) :
    (0 ≤ (detect_intent p).2 ∧ (detect_intent p).2 ≤ 1) ∧
    ((∀ row ∈ intentTable, matchCount row.2 p = 0) → detect_intent p = (.UNKNOWN, 0)) ∧
    ((∃ row ∈ intentTable, matchCount row.2 p ≠ 0) →
      (detect_intent p).2 = intentScoreOf (detect_intent p).1 p ∧
      0 < (detect_intent p).2 ∧
      (∀ it, intentScoreOf it p ≤ (detect_intent p).2) ∧
      (∀ it, intentScoreOf it p = (detect_intent p).2 →
        declIdx (detect_intent p).1 ≤ declIdx it)) := by
  rcases hscores : intentScores p with _ | ⟨x, xs⟩
  · have hdet : detect_intent p = (.UNKNOWN, 0) := by
      rw [detect_intent, hscores]
    refine ⟨?_, fun _ => hdet, ?_⟩
    · rw [hdet]
      exact ⟨le_refl 0, by norm_num⟩
    · rintro ⟨row, hrow, hm⟩
      exfalso
      have hmem := @intentScores_mem_of p row.1 row.2 (by simpa using hrow) hm
      rw [hscores] at hmem
      simp at hmem
  · have hdet : detect_intent p = pickBest x xs := by
      rw [detect_intent, hscores]
    have hrmem : detect_intent p ∈ intentScores p := by
      rw [hscores, hdet]
      rcases pickBest_mem xs x with h | h
      · rw [h]; exact List.mem_cons_self x xs
      · exact List.mem_cons_of_mem _ h
    obtain ⟨pats, hrowmem, hval, hm⟩ := mem_intentScores hrmem
    have hlen : 0 < pats.length := intentTable_len_pos _ hrowmem
    have hposr : 0 < (detect_intent p).2 := by
      rw [hval]
      exact mkRat_nat_pos (Nat.pos_of_ne_zero hm) hlen
    have hler : (detect_intent p).2 ≤ 1 := by
      rw [hval]
      exact mkRat_nat_le_one (List.countP_le_length _)
    have hconf : (detect_intent p).2 = intentScoreOf (detect_intent p).1 p := by
      rw [intentScoreOf_row hrowmem, hval]
    have hmax : ∀ it, intentScoreOf it p ≤ (detect_intent p).2 := by
      intro it
      rcases intentScoreOf_cases it p with h0 | ⟨pats', hrow', heq'⟩
      · rw [h0]; exact le_of_lt hposr
      · rw [heq']
        by_cases hm' : matchCount pats' p = 0
        · rw [hm', mkRat_zero_num]
          exact le_of_lt hposr
        · have hmem := intentScores_mem_of hrow' hm'
          rw [hscores] at hmem
          rw [hdet]
          rcases List.mem_cons.mp hmem with h | h
          · have hx2 : mkRat (matchCount pats' p) pats'.length = x.2 := by
              rw [← h]
            rw [hx2]
            exact pickBest_ge_init xs x
          · exact pickBest_ge_mem xs x _ h
    have htie : ∀ it, intentScoreOf it p = (detect_intent p).2 →
        declIdx (detect_intent p).1 ≤ declIdx it := by
      intro it hit
      rcases intentScoreOf_cases it p with h0 | ⟨pats', hrow', heq'⟩
      · rw [h0] at hit
        rw [← hit] at hposr
        exact absurd hposr (lt_irrefl 0)
      · by_cases hm' : matchCount pats' p = 0
        · rw [heq', hm', mkRat_zero_num] at hit
          rw [← hit] at hposr
          exact absurd hposr (lt_irrefl 0)
        · have hmem := intentScores_mem_of hrow' hm'
          rw [hscores] at hmem
          have hsorted : (x :: xs).Pairwise (fun u v => declIdx u.1 < declIdx v.1) := by
            rw [← hscores]
            exact intentScores_pairwise p
          have hz2 : (it, mkRat (matchCount pats' p) pats'.length).2 = (pickBest x xs).2 := by
            rw [← hdet, ← heq']
            exact hit
          have := pickBest_tie xs x hsorted _ hmem hz2
          rw [hdet]
          exact this
    refine ⟨⟨le_of_lt hposr, hler⟩, ?_, fun _ => ⟨hconf, hposr, hmax, htie⟩⟩
    intro hall
    exfalso
    have hx : x ∈ intentScores p := by
      rw [hscores]; exact List.mem_cons_self x xs
    obtain ⟨pats0, hrow0, _, hm0⟩ := mem_intentScores hx
    exact absurd (hall _ hrow0) hm0

/-- Witness for C1 at the prompt `"join a with b"`, which matches one of the
five join patterns. -/
theorem c1_witness :
    (∃ row ∈ intentTable, matchCount row.2 (S "join a with b") ≠ 0) ∧
    (detect_intent (S "join a with b")).2 =
      intentScoreOf (detect_intent (S "join a with b")).1 (S "join a with b") ∧
    0 < (detect_intent (S "join a with b")).2 :=
  ⟨⟨(IntentType.JOIN_TABLES, joinPats), by decide, by decide⟩,
   ((c1_intent_classifier (S "join a with b")).2.2
     ⟨(IntentType.JOIN_TABLES, joinPats), by decide, by decide⟩).1,
   ((c1_intent_classifier (S "join a with b")).2.2
     ⟨(IntentType.JOIN_TABLES, joinPats), by decide, by decide⟩).2.1⟩

/-! ## C3: table-reference dedup -/

theorem addCaps_invariant (models : List Str) : ∀ (caps found : List Str)
    (acc : List TableReference),
    found = (acc.map fun r => lowerS r.name) →
    (acc.Pairwise fun t1 t2 => lowerS t1.name ≠ lowerS t2.name) →
    ((addCaps models caps found acc).1.Pairwise
      fun t1 t2 => lowerS t1.name ≠ lowerS t2.name) ∧
    ((addCaps models caps found acc).2 =
      ((addCaps models caps found acc).1.map fun r => lowerS r.name)) ∧
    (∀ x, x ∈ (addCaps models caps found acc).2 ↔
      x ∈ found ∨ ∃ c ∈ caps, c ≠ [] ∧ lowerS c = x) ∧
    (∀ r ∈ (addCaps models caps found acc).1, r ∈ acc ∨
      (r.is_model = decide (r.name ∈ models) ∧
       r.confidence =
         (if decide (r.name ∈ models) = true then mkRat 8 10 else mkRat 6 10) ∧
       caps.find? (fun c => decide (c ≠ [] ∧ lowerS c = lowerS r.name)) = some r.name ∧
       lowerS r.name ∉ found)) := by
  intro caps
  induction caps with
  | nil =>
      intro found acc hfound hpw
      refine ⟨hpw, hfound, ?_, ?_⟩
      · intro x; simp [addCaps]
      · intro r hr; exact Or.inl hr
  | cons c rest ih =>
      intro found acc hfound hpw
      by_cases hcond : c ≠ [] ∧ lowerS c ∉ found
      · have hstep : addCaps models (c :: rest) found acc =
            addCaps models rest (found ++ [lowerS c])
              (acc ++ [⟨c, decide (c ∈ models),
                if decide (c ∈ models) = true then mkRat 8 10 else mkRat 6 10⟩]) := by
          simp only [addCaps]
          rw [if_pos hcond]
        have hfound' : found ++ [lowerS c] =
            ((acc ++ [(⟨c, decide (c ∈ models),
              if decide (c ∈ models) = true then mkRat 8 10 else mkRat 6 10⟩ :
              TableReference)]).map fun r => lowerS r.name) := by
          rw [List.map_append, ← hfound]
          rfl
        have hpw' : ((acc ++ [(⟨c, decide (c ∈ models),
            if decide (c ∈ models) = true then mkRat 8 10 else mkRat 6 10⟩ :
            TableReference)]).Pairwise
            fun t1 t2 => lowerS t1.name ≠ lowerS t2.name) := by
          rw [List.pairwise_append]
          refine ⟨hpw, by simp, ?_⟩
          intro a ha b hb
          have hb' : b = (⟨c, decide (c ∈ models),
              if decide (c ∈ models) = true then mkRat 8 10 else mkRat 6 10⟩ :
              TableReference) := by simpa using hb
          rw [hb']
          intro he
          apply hcond.2
          rw [hfound]
          exact List.mem_map.mpr ⟨a, ha, he⟩
        obtain ⟨P1, P2, P3, P4⟩ := ih (found ++ [lowerS c]) _ hfound' hpw'
        rw [hstep]
        refine ⟨P1, P2, ?_, ?_⟩
        · intro x
          rw [P3 x]
          constructor
          · rintro (hx | ⟨c', hc', h1, h2⟩)
            · rcases List.mem_append.mp hx with h | h
              · exact Or.inl h
              · have hxc : x = lowerS c := by simpa using h
                exact Or.inr ⟨c, List.mem_cons_self _ _, hcond.1, hxc.symm⟩
            · exact Or.inr ⟨c', List.mem_cons_of_mem _ hc', h1, h2⟩
          · rintro (hx | ⟨c', hc', h1, h2⟩)
            · exact Or.inl (List.mem_append_left _ hx)
            · rcases List.mem_cons.mp hc' with heq | hc''
              · refine Or.inl (List.mem_append_right _ ?_)
                rw [heq] at h2
                simp [h2]
              · exact Or.inr ⟨c', hc'', h1, h2⟩
        · intro r hr
          rcases P4 r hr with hacc' | ⟨q1, q2, q3, q4⟩
          · rcases List.mem_append.mp hacc' with h | h
            · exact Or.inl h
            · have hrn : r = (⟨c, decide (c ∈ models),
                  if decide (c ∈ models) = true then mkRat 8 10 else mkRat 6 10⟩ :
                  TableReference) := by simpa using h
              refine Or.inr ⟨by rw [hrn], by rw [hrn], ?_, ?_⟩
              · rw [List.find?_cons_of_pos _ (by
                  rw [hrn]
                  simp only [decide_eq_true_eq]
                  exact ⟨hcond.1, trivial⟩)]
                rw [hrn]
              · rw [hrn]
                exact hcond.2
          · refine Or.inr ⟨q1, q2, ?_, fun hmem => q4 (List.mem_append_left _ hmem)⟩
            rw [List.find?_cons_of_neg _ ?_, q3]
            simp only [decide_eq_true_eq, not_and]
            intro _ heq
            exact absurd (by rw [← heq]; exact List.mem_append_right _ (by simp)) q4
      · have hstep : addCaps models (c :: rest) found acc =
            addCaps models rest found acc := by
          simp only [addCaps]
          rw [if_neg hcond]
        obtain ⟨P1, P2, P3, P4⟩ := ih found acc hfound hpw
        rw [hstep]
        refine ⟨P1, P2, ?_, ?_⟩
        · intro x
          rw [P3 x]
          constructor
          · rintro (hx | ⟨c', hc', h1, h2⟩)
            · exact Or.inl hx
            · exact Or.inr ⟨c', List.mem_cons_of_mem _ hc', h1, h2⟩
          · rintro (hx | ⟨c', hc', h1, h2⟩)
            · exact Or.inl hx
            · rcases List.mem_cons.mp hc' with heq | hc''
              · left
                rw [heq] at h1 h2
                rcases not_and_or.mp hcond with h | h
                · exact absurd h1 h
                · rw [← h2]
                  exact not_not.mp h
              · exact Or.inr ⟨c', hc'', h1, h2⟩
        · intro r hr
          rcases P4 r hr with hacc' | ⟨q1, q2, q3, q4⟩
          · exact Or.inl hacc'
          · refine Or.inr ⟨q1, q2, ?_, q4⟩
            rw [List.find?_cons_of_neg _ ?_, q3]
            simp only [decide_eq_true_eq, not_and]
            intro hc1 heq
            rcases not_and_or.mp hcond with h | h
            · exact absurd hc1 h
            · exact absurd (by rw [← heq]; exact not_not.mp h) q4

theorem addModelScan_invariant (prompt : Str) : ∀ (ms found : List Str)
    (acc : List TableReference),
    found = (acc.map fun r => lowerS r.name) →
    (acc.Pairwise fun t1 t2 => lowerS t1.name ≠ lowerS t2.name) →
    ((addModelScan prompt ms found acc).Pairwise
      fun t1 t2 => lowerS t1.name ≠ lowerS t2.name) ∧
    (∀ r ∈ addModelScan prompt ms found acc, r ∈ acc ∨
      (r.is_model = true ∧ r.confidence = mkRat 9 10 ∧ r.name ∈ ms ∧
       lowerS r.name ∉ found)) := by
  intro ms
  induction ms with
  | nil =>
      intro found acc hfound hpw
      exact ⟨hpw, fun r hr => Or.inl hr⟩
  | cons m rest ih =>
      intro found acc hfound hpw
      by_cases hcond : lowerS m <:+: lowerS prompt ∧ lowerS m ∉ found
      · have hstep : addModelScan prompt (m :: rest) found acc =
            addModelScan prompt rest (found ++ [lowerS m])
              (acc ++ [⟨m, true, mkRat 9 10⟩]) := by
          simp only [addModelScan]
          rw [if_pos hcond]
        have hfound' : found ++ [lowerS m] =
            ((acc ++ [(⟨m, true, mkRat 9 10⟩ : TableReference)]).map
              fun r => lowerS r.name) := by
          rw [List.map_append, ← hfound]
          rfl
        have hpw' : ((acc ++ [(⟨m, true, mkRat 9 10⟩ : TableReference)]).Pairwise
            fun t1 t2 => lowerS t1.name ≠ lowerS t2.name) := by
          rw [List.pairwise_append]
          refine ⟨hpw, by simp, ?_⟩
          intro a ha b hb
          have hb' : b = (⟨m, true, mkRat 9 10⟩ : TableReference) := by simpa using hb
          rw [hb']
          intro he
          apply hcond.2
          rw [hfound]
          exact List.mem_map.mpr ⟨a, ha, he⟩
        obtain ⟨Q1, Q2⟩ := ih (found ++ [lowerS m]) _ hfound' hpw'
        rw [hstep]
        refine ⟨Q1, ?_⟩
        intro r hr
        rcases Q2 r hr with hacc' | ⟨s1, s2, s3, s4⟩
        · rcases List.mem_append.mp hacc' with h | h
          · exact Or.inl h
          · have hrn : r = (⟨m, true, mkRat 9 10⟩ : TableReference) := by simpa using h
            exact Or.inr ⟨by rw [hrn], by rw [hrn],
              by rw [hrn]; exact List.mem_cons_self _ _,
              by rw [hrn]; exact hcond.2⟩
        · exact Or.inr ⟨s1, s2, List.mem_cons_of_mem _ s3,
            fun hmem => s4 (List.mem_append_left _ hmem)⟩
      · have hstep : addModelScan prompt (m :: rest) found acc =
            addModelScan prompt rest found acc := by
          simp only [addModelScan]
          rw [if_neg hcond]
        obtain ⟨Q1, Q2⟩ := ih found acc hfound hpw
        rw [hstep]
        refine ⟨Q1, ?_⟩
        intro r hr
        rcases Q2 r hr with hacc' | ⟨s1, s2, s3, s4⟩
        · exact Or.inl hacc'
        · exact Or.inr ⟨s1, s2, List.mem_cons_of_mem _ s3, s4⟩

/-- C3: the extracted table references are deduplicated by lower-cased name;
for names arising from the regex captures the first capture wins and carries
confidence 0.8 (known model, by exact-name lookup) or 0.6 (unknown table),
while names added only by the known-model substring scan carry confidence
0.9 and are flagged as models. -/
theorem c3_dedup_first_wins (models : List Str) (prompt : Str) :
    ((extract_table_references models prompt).Pairwise
      fun t1 t2 => lowerS t1.name ≠ lowerS t2.name) ∧
    (∀ r ∈ extract_table_references models prompt,
      r.is_model = decide (r.name ∈ models) ∧
      ((∃ c ∈ allTableCaps prompt, c ≠ [] ∧ lowerS c = lowerS r.name) →
        (allTableCaps prompt).find?
          (fun c => decide (c ≠ [] ∧ lowerS c = lowerS r.name)) = some r.name ∧
        r.confidence = (if r.name ∈ models then mkRat 8 10 else mkRat 6 10)) ∧
      ((¬ ∃ c ∈ allTableCaps prompt, c ≠ [] ∧ lowerS c = lowerS r.name) →
        r.confidence = mkRat 9 10 ∧ r.is_model = true)) := by
  obtain ⟨P1, P2, P3, P4⟩ :=
    addCaps_invariant models (allTableCaps prompt) [] [] rfl (by simp)
  obtain ⟨Q1, Q2⟩ :=
    addModelScan_invariant prompt models
      (addCaps models (allTableCaps prompt) [] []).2
      (addCaps models (allTableCaps prompt) [] []).1 P2 P1
  have hext : extract_table_references models prompt =
      addModelScan prompt models
        (addCaps models (allTableCaps prompt) [] []).2
        (addCaps models (allTableCaps prompt) [] []).1 := rfl
  rw [hext]
  refine ⟨Q1, ?_⟩
  intro r hr
  rcases Q2 r hr with hacc | ⟨s1, s2, s3, s4⟩
  · rcases P4 r hacc with habs | ⟨q1, q2, q3, q4⟩
    · simp at habs
    · refine ⟨q1, ?_, ?_⟩
      · intro _
        refine ⟨q3, ?_⟩
        rw [q2]
        by_cases h : r.name ∈ models <;> simp [h]
      · intro hno
        exfalso
        have hpred := List.find?_some q3
        simp only [decide_eq_true_eq] at hpred
        exact hno ⟨r.name, List.mem_of_find?_eq_some q3, hpred.1, rfl⟩
  · refine ⟨by rw [s1]; simp [s3], ?_, fun _ => ⟨s2, s1⟩⟩
    intro hex
    exfalso
    obtain ⟨c, hc, h1, h2⟩ := hex
    exact s4 ((P3 (lowerS r.name)).mpr (Or.inr ⟨c, hc, h1, h2⟩))

/-- Witness for C3 at the prompt `"from customers join orders"` with known
model `orders`: references are dedup-distinct, and `customers` is present
with its first capture winning. -/
theorem c3_witness :
    ((extract_table_references [S "orders"] (S "from customers join orders")).Pairwise
      fun t1 t2 => lowerS t1.name ≠ lowerS t2.name) ∧
    (allTableCaps (S "from customers join orders")).find?
      (fun c => decide (c ≠ [] ∧ lowerS c =
        lowerS (TableReference.name ⟨S "customers", false, mkRat 6 10⟩))) =
      some (TableReference.name ⟨S "customers", false, mkRat 6 10⟩) :=
  ⟨(c3_dedup_first_wins [S "orders"] (S "from customers join orders")).1,
   (((c3_dedup_first_wins [S "orders"] (S "from customers join orders")).2
      ⟨S "customers", false, mkRat 6 10⟩ (by decide)).2.1 (by decide)).1⟩

/-- C10: the extracted output name of any prompt contains no upper-case
letters, because `_extract_output_name` runs on the lower-cased copy of the
prompt; and whenever a non-empty output name is present, the generated model
name is exactly that output name. -/
theorem c10_output_name_lowercase (models : List Str) (prompt nm : Str)
    (h : (analyze_prompt models prompt).output_name = some nm) :
    (∀ c ∈ nm, c.isUpper = false) ∧
      (nm ≠ [] →
        (mock_kiro_ai_generation (analyze_prompt models prompt)).model_name = nm) := by
  have hout : extract_output_name (lowerS prompt) = some nm := h
  constructor
  · intro c hc
    have hinf : nm <:+: lowerS prompt := firstCap_infix _ _ _ hout
    have hmem : c ∈ lowerS prompt := hinf.subset hc
    simp only [lowerS, List.mem_map] at hmem
    obtain ⟨y, _, hy⟩ := hmem
    rw [← hy]
    exact isUpper_toLower_false y
  · intro hne
    show (match (analyze_prompt models prompt).output_name with
          | some n => if n ≠ [] then n else generate_model_name (analyze_prompt models prompt)
          | none => generate_model_name (analyze_prompt models prompt)) = nm
    rw [h]
    simp [hne]

/-- Witness for C10 at the mixed-case prompt `"Create A Model Revenue_Rollup"`:
the extracted output name is the all-lower-case `revenue_rollup` and it
becomes the model name. -/
theorem c10_witness :
    (analyze_prompt [] (S "Create A Model Revenue_Rollup")).output_name =
      some (S "revenue_rollup") ∧
    (∀ c ∈ S "revenue_rollup", c.isUpper = false) ∧
    (S "revenue_rollup" ≠ [] →
      (mock_kiro_ai_generation (analyze_prompt [] (S "Create A Model Revenue_Rollup"))).model_name =
        S "revenue_rollup") :=
  ⟨by decide,
   c10_output_name_lowercase [] (S "Create A Model Revenue_Rollup")
     (S "revenue_rollup") (by decide)⟩

/-- C9: any prompt whose lower-cased text contains the substring `table`
(also inside a longer word such as `tables`) gets materialization `table`,
because the table row of `materialization_patterns` is checked first and its
first pattern matches the bare substring; the generated SQL for such a prompt
therefore starts with the `config(materialized='table')` block. -/
theorem c9_table_substring_materialization (models : List Str) (prompt : Str)
    (h : S "table" <:+: lowerS prompt) :
    (analyze_prompt models prompt).materialization = S "table" ∧
    (S "\x7b\x7b" ++ ['\n'] ++ S "  config(" ++ ['\n'] ++
     (S "    " ++ (S "materialized=" ++ [apos] ++ S "table" ++ [apos])) ++ ['\n'] ++
     S "  )" ++ ['\n'] ++ S "\x7d\x7d" ++ ['\n']) <+:
      (mock_kiro_ai_generation (analyze_prompt models prompt)).sql := by
  have hmat : extract_materialization (lowerS prompt) = S "table" := by
    obtain ⟨pre, suf, he⟩ := h
    have hsuf : S "table" ++ suf <:+ lowerS prompt :=
      ⟨pre, by rw [← List.append_assoc]; exact he⟩
    have hm : mAll (seqL [.opt (seqL [litS "as", wsP]), .opt (seqL [litS "a", wsP]), litS "table"])
        (S "table" ++ suf) none = [(suf, none)] := rfl
    have hsb : searchB (seqL [.opt (seqL [litS "as", wsP]), .opt (seqL [litS "a", wsP]), litS "table"])
        (lowerS prompt) = true := by
      show (searchFuel _ (lowerS prompt).length (lowerS prompt)).isSome = true
      exact searchFuel_complete _ _ _ _ hsuf (Nat.le_add_right _ _) (by rw [hm]; simp)
    have hc : (List.any
        [seqL [.opt (seqL [litS "as", wsP]), .opt (seqL [litS "a", wsP]), litS "table"],
         seqL [litS "materialize", wsP, .opt (seqL [litS "as", wsP]), litS "table"]]
        fun pat => searchB pat (lowerS prompt)) = true := by
      simp [List.any_cons, hsb]
    show extractMatFrom matTable (lowerS prompt) = S "table"
    simp only [matTable, extractMatFrom]
    rw [if_pos hc]
  have hmat2 : (analyze_prompt models prompt).materialization = S "table" := hmat
  refine ⟨hmat2, ?_⟩
  have hcfg : configParts (analyze_prompt models prompt) =
      [S "\x7b\x7b", S "  config(",
       S "    " ++ (S "materialized=" ++ [apos] ++ S "table" ++ [apos]),
       S "  )", S "\x7d\x7d", ([] : Str)] := by
    simp only [configParts]
    rw [hmat2]
    rw [if_pos (by decide)]
  show _ <+: joinWith ['\n']
    (configParts (analyze_prompt models prompt) ++ generateBody (analyze_prompt models prompt))
  rw [hcfg]
  generalize generateBody (analyze_prompt models prompt) = body
  rw [show ([S "\x7b\x7b", S "  config(",
        S "    " ++ (S "materialized=" ++ [apos] ++ S "table" ++ [apos]),
        S "  )", S "\x7d\x7d", ([] : Str)] ++ body) =
      S "\x7b\x7b" :: S "  config(" ::
        (S "    " ++ (S "materialized=" ++ [apos] ++ S "table" ++ [apos])) ::
        S "  )" :: S "\x7d\x7d" :: ([] : Str) :: body from rfl]
  rw [joinWith_cons_cons, joinWith_cons_cons, joinWith_cons_cons, joinWith_cons_cons,
      joinWith_cons_cons]
  refine ⟨joinWith ['\n'] (([] : Str) :: body), ?_⟩
  simp [List.append_assoc]

/-- Witness for C9 at the prompt `"join the customer and order tables"`,
where `table` occurs only inside the word `tables`. -/
theorem c9_witness :
    (S "table" <:+: lowerS (S "join the customer and order tables")) ∧
    ((analyze_prompt [] (S "join the customer and order tables")).materialization = S "table" ∧
     (S "\x7b\x7b" ++ ['\n'] ++ S "  config(" ++ ['\n'] ++
      (S "    " ++ (S "materialized=" ++ [apos] ++ S "table" ++ [apos])) ++ ['\n'] ++
      S "  )" ++ ['\n'] ++ S "\x7d\x7d" ++ ['\n']) <+:
       (mock_kiro_ai_generation (analyze_prompt [] (S "join the customer and order tables"))).sql) :=
  ⟨by decide,
   c9_table_substring_materialization [] (S "join the customer and order tables") (by decide)⟩

/-- C8 counterexample: for `"select a as my_col from t"` the inferred column
name is `MY_COL` (the alias taken from the upper-cased copy of the item), not
the alias `my_col` as it appears in the SQL. -/
theorem c8_counterexample :
    (parse_select_columns (S "select a as my_col from t")).map (fun ci => ci.name) =
      [S "MY_COL"] ∧
    (parse_select_columns (S "select a as my_col from t")).map (fun ci => ci.name) ≠
      [S "my_col"] := by decide

/-- C8 (amended): for a single aliased SELECT item, column inference locates
the SELECT ... FROM span, splits, and returns the alias of the item taken
from the **upper-cased** copy of the item (the `part.upper().split(" AS ")`
bug), i.e. the upper-cased alias rather than the alias as written. -/
theorem c8_amended (al : Str)
    (hne : al ≠ [])
    (hws : ∀ c ∈ al, isPySpace c = false)
    (hcm : ',' ∉ al)
    (hfrom : ¬ S "FROM" <:+: upperS al)
    (hq : removeQuotes (upperS al) = upperS al)
    (hstar : upperS al ≠ [ '*' ]) :
    (infer_columns_from_compiled_sql
        (some (S "select a as " ++ al ++ S " from t")) none).map (fun ci => ci.name) =
      [upperS al] := by
  have hspup : ∀ c ∈ upperS al, isPySpace c = false := by
    intro c hc
    simp only [upperS, List.mem_map] at hc
    obtain ⟨y, hy, rfl⟩ := hc
    rw [isPySpace_toUpper]
    exact hws y hy
  have hnosp : ' ' ∉ upperS al := fun hmem => absurd (hspup ' ' hmem) (by decide)
  have hrevne : al.reverse ≠ [] := by simpa using hne
  have hrevws : ∀ c ∈ al.reverse, isPySpace c = false :=
    fun c hc => hws c (List.mem_reverse.mp hc)
  have e0 : upperS (S "select a as " ++ al ++ S " from t") =
      S "SELECT A AS " ++ upperS al ++ S " FROM T" := by
    simp only [upperS, List.map_append]
    rw [show List.map Char.toUpper (S "select a as ") = S "SELECT A AS " from by decide,
        show List.map Char.toUpper (S " from t") = S " FROM T" from by decide]
  have e1 : findIdx (S "SELECT") (S "SELECT A AS " ++ upperS al ++ S " FROM T") = some 0 := by
    have hp : (S "SELECT").isPrefixOf (S "SELECT A AS " ++ upperS al ++ S " FROM T") = true := rfl
    unfold findIdx
    rw [if_pos hp]
  have hAassoc : S "SELECT A AS " ++ upperS al ++ S " FROM T" =
      (S "SELECT A AS " ++ upperS al ++ [' ']) ++ S "FROM T" := by
    rw [show S " FROM T" = [' '] ++ S "FROM T" from rfl]
    rw [← List.append_assoc]
  have h1pf : ¬ S "FROM" <:+: (S "SELECT A AS " ++ upperS al ++ [' ']) := by
    intro hI
    rcases infix_append_cons (by decide) hI with hI | hI
    · rcases infix_append_split hI with h | h | ⟨n1, n2, he, hn1, hn2, hs, hp⟩
      · exact absurd h (by decide)
      · exact hfrom h
      · have hc : ' ' ∈ n1 := getLast_mem_of_suffix hn1
          (by rw [show S "SELECT A AS " = S "SELECT A AS" ++ [' '] from rfl] at hs; exact hs)
        have : ' ' ∈ S "FROM" := by rw [he]; exact List.mem_append_left n2 hc
        exact absurd this (by decide)
    · exact absurd (List.eq_nil_of_infix_nil hI) (by decide)
  have h2pf : ∀ n1 n2, S "FROM" = n1 ++ n2 → n1 ≠ [] → n2 ≠ [] →
      n1 <:+ (S "SELECT A AS " ++ upperS al ++ [' ']) → ¬ n2 <+: S "FROM T" := by
    intro n1 n2 he hn1 _ hs _
    have hc : ' ' ∈ n1 := getLast_mem_of_suffix hn1 hs
    have : ' ' ∈ S "FROM" := by rw [he]; exact List.mem_append_left n2 hc
    exact absurd this (by decide)
  have e2 : findIdx (S "FROM") (S "SELECT A AS " ++ upperS al ++ S " FROM T") =
      some (13 + al.length) := by
    rw [hAassoc]
    rw [findIdx_append_eq (S "FROM") _ (S "FROM T") h1pf h2pf (by decide)]
    congr 1
    simp only [List.length_append, upperS, List.length_map, List.length_cons, List.length_nil]
    rw [show (S "SELECT A AS ").length = 12 from rfl]
    omega
  have e3 : findIdxFrom (S "FROM") (S "SELECT A AS " ++ upperS al ++ S " FROM T") 0 =
      some (13 + al.length) := by
    unfold findIdxFrom
    rw [List.drop_zero, e2]
    rfl
  have e4 : (S "select a as " ++ al ++ S " from t").drop (0 + 6) =
      S " a as " ++ al ++ S " from t" := rfl
  have e5 : (S " a as " ++ al ++ S " from t").take (13 + al.length - (0 + 6)) =
      S " a as " ++ (al ++ [' ']) := by
    rw [List.append_assoc]
    rw [show 13 + al.length - (0 + 6) = (S " a as ").length + (al.length + 1) from by
      rw [show (S " a as ").length = 6 from rfl]; omega]
    rw [List.take_append]
    rw [show (al ++ S " from t").take (al.length + 1) = al ++ (S " from t").take 1 from
      List.take_append 1]
    rfl
  have e6 : stripS (S " a as " ++ (al ++ [' '])) = S "a as " ++ al := by
    unfold stripS
    rw [show List.dropWhile isPySpace (S " a as " ++ (al ++ [' '])) =
        S "a as " ++ (al ++ [' ']) from rfl]
    rw [show (S "a as " ++ (al ++ [' '])).reverse =
        ' ' :: (al.reverse ++ (S "a as ").reverse) from by simp]
    rw [show List.dropWhile isPySpace (' ' :: (al.reverse ++ (S "a as ").reverse)) =
        List.dropWhile isPySpace (al.reverse ++ (S "a as ").reverse) from rfl]
    rw [dropWhile_append_eq_self hrevne hrevws]
    simp
  have e7 : stripS (S "a as " ++ al) = S "a as " ++ al := by
    unfold stripS
    rw [show List.dropWhile isPySpace (S "a as " ++ al) = S "a as " ++ al from rfl]
    rw [show (S "a as " ++ al).reverse = al.reverse ++ (S "a as ").reverse from by simp]
    rw [dropWhile_append_eq_self hrevne hrevws]
    simp
  have e8 : pySplit ',' (S "a as " ++ al) = [S "a as " ++ al] := by
    refine pySplit_single_of_not_mem ?_
    intro hmem
    rcases List.mem_append.mp hmem with h | h
    · exact absurd h (by decide)
    · exact hcm h
  have e9 : upperS (S "a as " ++ al) = S "A AS " ++ upperS al := by
    simp only [upperS, List.map_append]
    rw [show List.map Char.toUpper (S "a as ") = S "A AS " from by decide]
  have hAS : S " AS " <:+: S "A AS " ++ upperS al := ⟨['A'], upperS al, rfl⟩
  have hnoAS : ¬ S " AS " <:+: upperS al :=
    not_infix_of_mem_not_mem (show ' ' ∈ S " AS " from by decide) hnosp
  have g1 : findIdx (S " AS ") (S "A AS " ++ upperS al) = some 1 := by
    have hp0 : (S " AS ").isPrefixOf (S "A AS " ++ upperS al) = false := rfl
    have hp : ¬ (S " AS ").isPrefixOf (S "A AS " ++ upperS al) = true := by
      rw [hp0]
      simp
    unfold findIdx
    rw [if_neg hp]
    show Option.map (fun x => x + 1)
      (findIdx (S " AS ") (S " AS " ++ upperS al)) = some 1
    have hp2 : (S " AS ").isPrefixOf (S " AS " ++ upperS al) = true :=
      isPrefixOf_eq_true.mpr (List.prefix_append _ _)
    unfold findIdx
    rw [if_pos hp2]
    rfl
  have e10 : pySplitSecond (S " AS ") (S "A AS " ++ upperS al) = upperS al := by
    unfold pySplitSecond
    rw [g1]
    simp only []
    rw [show (S "A AS " ++ upperS al).drop (1 + (S " AS ").length) = upperS al from rfl]
    rw [findIdx_eq_none_of_no_occurrence _ _ hnoAS]
  have e11 : stripS (upperS al) = upperS al := stripS_eq_self_of_forall hspup
  have hupne : upperS al ≠ [] := by
    simp only [upperS, ne_eq, List.map_eq_nil_iff]
    exact hne
  -- now assemble
  have hne2 : ¬ (S "a as " ++ al = []) := by
    intro hnil
    exact hne (List.append_eq_nil.mp hnil).2
  show (parse_select_columns (S "select a as " ++ al ++ S " from t")).map
      (fun ci => ci.name) = [upperS al]
  simp only [parse_select_columns, e0, e1, e3, e4, e5, e6, e8, List.map_cons, List.map_nil, e7,
    List.filterMap_cons, List.filterMap_nil]
  rw [if_neg hne2]
  rw [e9]
  rw [if_pos hAS]
  rw [e10, e11]
  rw [hq]
  rw [if_pos (⟨hupne, hstar⟩ : upperS al ≠ [] ∧ upperS al ≠ [ '*' ])]
  simp

/-- Witness for C8 (amended) at the alias `my_col`, inferred as `MY_COL`. -/
theorem c8_witness :
    ((S "my_col" ≠ []) ∧ (∀ c ∈ S "my_col", isPySpace c = false) ∧ (',' ∉ S "my_col") ∧
     (¬ S "FROM" <:+: upperS (S "my_col")) ∧
     (removeQuotes (upperS (S "my_col")) = upperS (S "my_col")) ∧
     (upperS (S "my_col") ≠ [ '*' ])) ∧
    (infer_columns_from_compiled_sql
        (some (S "select a as " ++ S "my_col" ++ S " from t")) none).map (fun ci => ci.name) =
      [upperS (S "my_col")] :=
  ⟨by decide,
   c8_amended (S "my_col") (by decide) (by decide) (by decide) (by decide) (by decide)
     (by decide)⟩

set_option maxRecDepth 16384 in
/-- C4 counterexample: the never-wrapped guarantee is false of the program on
reachable prompts.  For `"join orders with customers where ref('orders') > 0"`
with known model `customers`, the analysis takes the join branch with used
references `orders` (`is_model = false`) and `customers` (`is_model = true`),
the where-clause fragment `ref('orders') > 0` is copied verbatim into the
generated WHERE clause, and so the emitted SQL contains `ref('orders')` for
the non-model reference `orders`. -/
theorem c4_counterexample :
    (usedRefs (analyze_prompt [S "customers"]
        (S "join orders with customers where ref(" ++ [apos] ++ S "orders" ++ [apos] ++
         S ") > 0"))).map (fun t => (t.name, t.is_model)) =
      [(S "orders", false), (S "customers", true)] ∧
    refNeedle (S "orders") <:+:
      (mock_kiro_ai_generation (analyze_prompt [S "customers"]
        (S "join orders with customers where ref(" ++ [apos] ++ S "orders" ++ [apos] ++
         S ") > 0"))).sql := by
  decide

/-- C4 (amended): ref-vs-raw correctness of the synthesis, away from verbatim
fragment copying.  Filter and aggregation fragments are pasted into the SQL
unchanged, so a fragment that itself contains `ref(` defeats the guarantee
(see the counterexample above); for every analysis whose fragments do not
contain `ref(` — and whose table names are identifiers with
pairwise-distinct names among the references the taken branch uses, with join
types and materialization from their enumerations — every used reference with
`is_model = true` appears in the emitted SQL as `{{ ref('<name>') }}`, and
every used reference with `is_model = false` appears as the bare name and is
never wrapped in `ref('<name>')` anywhere in the SQL.  This covers all five
synthesis branches. -/
theorem c4_ref_vs_raw (a : PromptAnalysis)
    (hnames : ∀ t ∈ a.table_references, ∀ c ∈ t.name, isIdentChar c = true)
    (hdist : (usedRefs a).Pairwise (fun t1 t2 => t1.name ≠ t2.name))
    (hjt : ∀ j ∈ a.join_requirements, j.join_type ∈ [S "inner", S "left", S "right", S "full"])
    (hmat : a.materialization ∈ dbtMaterializations)
    (hfil : ∀ g ∈ a.filters, ¬ S "ref(" <:+: g)
    (hagg : ∀ g ∈ a.aggregations, ¬ S "ref(" <:+: g) :
    ∀ t ∈ usedRefs a,
      (t.is_model = true → refWrap t.name <:+: (mock_kiro_ai_generation a).sql) ∧
      (t.is_model = false → t.name <:+: (mock_kiro_ai_generation a).sql ∧
        ¬ refNeedle t.name <:+: (mock_kiro_ai_generation a).sql) := by
  have hsub : usedRefs a ⊆ a.table_references := by
    unfold usedRefs
    split
    · exact List.take_subset _ _
    · exact List.take_subset _ _
  have hident : ∀ t ∈ usedRefs a, ∀ c ∈ t.name, isIdentChar c = true :=
    fun t ht => hnames t (hsub ht)
  have hsql : (mock_kiro_ai_generation a).sql =
      joinWith [ '\n' ] (configParts a ++ generateBody a) := rfl
  have hmain : (∀ u ∈ usedRefs a, ∃ pre, (pre ++ refStrOf u) ∈ configParts a ++ generateBody a) ∧
      (∀ t ∈ usedRefs a, t.is_model = false →
        ∀ p ∈ configParts a ++ generateBody a, ¬ refNeedle t.name <:+: p) := by
    by_cases hj : a.intent = .JOIN_TABLES ∧ 2 ≤ a.table_references.length
    · rcases href : a.table_references with _ | ⟨t0, _ | ⟨t1, rest⟩⟩
      · rw [href] at hj
        simp at hj
      · rw [href] at hj
        simp at hj
      · have hused : usedRefs a = [t0, t1] := by
          unfold usedRefs
          rw [if_pos hj, href]
          rfl
        have hbody : generateBody a = generate_join_sql a := by
          unfold generateBody
          rw [if_pos hj]
        constructor
        · intro u hu
          rw [hused] at hu
          simp only [List.mem_cons, List.not_mem_nil, or_false] at hu
          refine ⟨S "  select * from ", List.mem_append_right _ ?_⟩
          rw [hbody]
          unfold generate_join_sql
          rw [href]
          rcases hu with rfl | rfl
          · simp
          · simp
        · intro t' ht' hm' p hp
          have haposT : apos ∉ t'.name := not_mem_of_ident (hident t' ht') (by decide)
          have hapos0 : apos ∉ t0.name :=
            not_mem_of_ident (hnames t0 (by rw [href]; exact List.mem_cons_self _ _)) (by decide)
          have hapos1 : apos ∉ t1.name :=
            not_mem_of_ident (hnames t1
              (by rw [href]; exact List.mem_cons_of_mem _ (List.mem_cons_self _ _))) (by decide)
          have hd2 : t0.name ≠ t1.name := by
            rw [hused] at hdist
            exact (List.pairwise_cons.mp hdist).1 t1 (List.mem_cons_self _ _)
          have htmem : t' = t0 ∨ t' = t1 := by
            rw [hused] at ht'
            simpa using ht'
          have hne0 : t0.is_model = true → t'.name ≠ t0.name := by
            intro hm0
            rcases htmem with rfl | rfl
            · rw [hm0] at hm'
              exact absurd hm' (by decide)
            · exact fun he => hd2 he.symm
          have hne1 : t1.is_model = true → t'.name ≠ t1.name := by
            intro hm1
            rcases htmem with rfl | rfl
            · exact hd2
            · rw [hm1] at hm'
              exact absurd hm' (by decide)
          have hjtv : (match a.join_requirements with
              | j :: _ => j.join_type | [] => S "inner") ∈
              [S "inner", S "left", S "right", S "full"] := by
            cases hjr : a.join_requirements with
            | nil => decide
            | cons j js => exact hjt j (by rw [hjr]; exact List.mem_cons_self _ _)
          have hflt : ∀ q ∈ (if a.filters ≠ [] then S "  where" :: filterLines a.filters
              else []), ¬ refNeedle t'.name <:+: q := by
            intro q hq
            by_cases hf : a.filters ≠ []
            · rw [if_pos hf] at hq
              rcases List.mem_cons.mp hq with rfl | hq
              · exact needle_kill_apos (by decide)
              · obtain ⟨g, hg, hc⟩ := mem_filterLines hq
                rcases hc with rfl | rfl
                · exact needle_kill_frag0 (by decide) (hfil g hg)
                · exact needle_kill_frag0 (by decide) (hfil g hg)
            · rw [if_neg hf] at hq
              simp at hq
          rcases List.mem_append.mp hp with hp | hp
          · exact configParts_safe a hmat t'.name p hp
          · have hS : ∀ q ∈ generateBody a, ¬ refNeedle t'.name <:+: q := by
              rw [hbody]
              unfold generate_join_sql
              rw [href]
              simp only [List.forall_mem_cons, List.forall_mem_append]
              repeat' apply And.intro
              all_goals first
                | exact List.forall_mem_nil _
                | exact needle_kill_apos (by decide)
                | exact needle_kill_refLine _ (by decide) haposT hapos0 hne0
                | exact needle_kill_refLine _ (by decide) haposT hapos1 hne1
                | exact needle_kill_jtline hjtv
                | exact hflt
            exact hS p hp
    · rcases href : a.table_references with _ | ⟨t0, rest⟩
      · have hused : usedRefs a = [] := by
          unfold usedRefs
          rw [if_neg hj, href]
          rfl
        constructor
        · intro u hu
          rw [hused] at hu
          simp at hu
        · intro t' ht'
          rw [hused] at ht'
          simp at ht'
      · have hused : usedRefs a = [t0] := by
          unfold usedRefs
          rw [if_neg hj, href]
          rfl
        have hapos0 : apos ∉ t0.name :=
          not_mem_of_ident (hnames t0 (by rw [href]; exact List.mem_cons_self _ _)) (by decide)
        have htmem : ∀ t', t' ∈ usedRefs a → t' = t0 := by
          intro t' ht'
          rw [hused] at ht'
          simpa using ht'
        have hprep : ∀ t' ∈ usedRefs a, t'.is_model = false →
            (apos ∉ t'.name ∧ (t0.is_model = true → t'.name ≠ t0.name)) := by
          intro t' ht' hm'
          refine ⟨not_mem_of_ident (hident t' ht') (by decide), ?_⟩
          intro hm0
          rw [htmem t' ht'] at hm'
          rw [hm0] at hm'
          exact absurd hm' (by decide)
        by_cases hAg : a.intent = .AGGREGATE_DATA
        · have hbody : generateBody a = generate_aggregate_sql a := by
            unfold generateBody
            rw [if_neg hj, if_pos hAg]
          have hmidne : (if a.aggregations ≠ [] then
              List.map (fun g => S "    " ++ g ++ S ",") a.aggregations
              else [S "    count(*) as row_count,",
                    S "    count(distinct id) as unique_ids  -- Adjust columns as needed"]) ≠
              [] := by
            by_cases hga : a.aggregations ≠ []
            · rw [if_pos hga]
              simpa using hga
            · rw [if_neg hga]
              simp
          constructor
          · intro u hu
            have := htmem u hu
            subst this
            refine ⟨S "  select * from ", List.mem_append_right _ ?_⟩
            rw [hbody]
            unfold generate_aggregate_sql
            rw [href]
            simp only [List.mem_append]
            refine Or.inl (Or.inl (Or.inl ?_))
            apply mem_stripLastComma_of_mem_dropLast
            rw [List.dropLast_append_of_ne_nil _ hmidne]
            exact List.mem_append_left _ (by simp)
          · intro t' ht' hm' p hp
            obtain ⟨haposT, hne0⟩ := hprep t' ht' hm'
            have hmid : ∀ q ∈ (if a.aggregations ≠ [] then
                List.map (fun g => S "    " ++ g ++ S ",") a.aggregations
                else [S "    count(*) as row_count,",
                      S "    count(distinct id) as unique_ids  -- Adjust columns as needed"]),
                ¬ refNeedle t'.name <:+: q := by
              intro q hq
              by_cases hga : a.aggregations ≠ []
              · rw [if_pos hga] at hq
                obtain ⟨g, hg, rfl⟩ := List.mem_map.mp hq
                rw [List.append_assoc]
                exact needle_kill_frag (by decide) (by decide) (hagg g hg)
              · rw [if_neg hga] at hq
                rcases List.mem_cons.mp hq with rfl | hq
                · exact needle_kill_apos (by decide)
                · rw [List.mem_singleton] at hq
                  subst hq
                  exact needle_kill_apos (by decide)
            have hgrp : ∀ q ∈ (if a.aggregations.any
                  (fun g => decide (S "group by" <:+: lowerS g)) = true then
                [S "  group by 1  -- Adjust grouping columns as needed"] else []),
                ¬ refNeedle t'.name <:+: q := by
              intro q hq
              by_cases hga : a.aggregations.any (fun g => decide (S "group by" <:+: lowerS g)) = true
              · rw [if_pos hga] at hq
                rw [List.mem_singleton] at hq
                subst hq
                exact needle_kill_apos (by decide)
              · rw [if_neg hga] at hq
                simp at hq
            rcases List.mem_append.mp hp with hp | hp
            · exact configParts_safe a hmat t'.name p hp
            · have hS : ∀ q ∈ generateBody a, ¬ refNeedle t'.name <:+: q := by
                rw [hbody]
                unfold generate_aggregate_sql
                rw [href]
                have hhm : ∀ q ∈ ([S "with", ([] : Str), S "source_data as (",
                    S "  select * from " ++ refStrOf t0, S "),", ([] : Str),
                    S "aggregated as (", S "  select"] ++
                    (if a.aggregations ≠ [] then
                      List.map (fun g => S "    " ++ g ++ S ",") a.aggregations
                      else [S "    count(*) as row_count,",
                            S "    count(distinct id) as unique_ids  -- Adjust columns as needed"])),
                    ¬ refNeedle t'.name <:+: q := by
                  simp only [List.forall_mem_cons, List.forall_mem_append]
                  repeat' apply And.intro
                  all_goals first
                    | exact List.forall_mem_nil _
                    | exact needle_kill_apos (by decide)
                    | exact needle_kill_refLine _ (by decide) haposT hapos0 hne0
                    | exact hmid
                simp only [List.forall_mem_cons, List.forall_mem_append]
                repeat' apply And.intro
                all_goals first
                  | exact List.forall_mem_nil _
                  | exact needle_kill_apos (by decide)
                  | exact hgrp
                  | (intro q hq
                     rcases mem_stripLastComma hq with hq | ⟨q0, hq0, rfl⟩
                     · exact hhm q hq
                     · exact needle_kill_dropLast (hhm q0 hq0))
              exact hS p hp
        · by_cases hFi : a.intent = .FILTER_DATA
          · have hbody : generateBody a = generate_filter_sql a := by
              unfold generateBody
              rw [if_neg hj, if_neg hAg, if_pos hFi]
            constructor
            · intro u hu
              have := htmem u hu
              subst this
              refine ⟨S "  select * from ", List.mem_append_right _ ?_⟩
              rw [hbody]
              unfold generate_filter_sql
              rw [href]
              simp
            · intro t' ht' hm' p hp
              obtain ⟨haposT, hne0⟩ := hprep t' ht' hm'
              have hflt : ∀ q ∈ (if a.filters ≠ [] then S "  where" :: filterLines a.filters
                  else []), ¬ refNeedle t'.name <:+: q := by
                intro q hq
                by_cases hf : a.filters ≠ []
                · rw [if_pos hf] at hq
                  rcases List.mem_cons.mp hq with rfl | hq
                  · exact needle_kill_apos (by decide)
                  · obtain ⟨g, hg, hc⟩ := mem_filterLines hq
                    rcases hc with rfl | rfl
                    · exact needle_kill_frag0 (by decide) (hfil g hg)
                    · exact needle_kill_frag0 (by decide) (hfil g hg)
                · rw [if_neg hf] at hq
                  simp at hq
              rcases List.mem_append.mp hp with hp | hp
              · exact configParts_safe a hmat t'.name p hp
              · have hS : ∀ q ∈ generateBody a, ¬ refNeedle t'.name <:+: q := by
                  rw [hbody]
                  unfold generate_filter_sql
                  rw [href]
                  simp only [List.forall_mem_cons, List.forall_mem_append]
                  repeat' apply And.intro
                  all_goals first
                    | exact List.forall_mem_nil _
                    | exact needle_kill_apos (by decide)
                    | exact needle_kill_refLine _ (by decide) haposT hapos0 hne0
                    | exact hflt
                exact hS p hp
          · by_cases hTr : a.intent = .TRANSFORM_DATA
            · have hbody : generateBody a = generate_transform_sql a := by
                unfold generateBody
                rw [if_neg hj, if_neg hAg, if_neg hFi, if_pos hTr]
              constructor
              · intro u hu
                have := htmem u hu
                subst this
                refine ⟨S "  select * from ", List.mem_append_right _ ?_⟩
                rw [hbody]
                unfold generate_transform_sql
                rw [href]
                simp only [List.mem_append]
                refine Or.inl ?_
                apply mem_stripLastComma_of_mem_dropLast
                by_cases htlne : (if a.transformations ≠ [] then
                    a.transformations.flatMap (fun tr =>
                      if S "calculate" <:+: lowerS tr then [S "    -- Add calculated fields here"]
                      else if S "convert" <:+: lowerS tr then [S "    -- Add conversion logic here"]
                      else if S "column" <:+: lowerS tr ∨ S "field" <:+: lowerS tr then
                        [S "    -- Add new column here"]
                      else [])
                    else [S "    current_timestamp as processed_at"]) = []
                · rw [htlne, List.append_nil]
                  simp
                · rw [List.dropLast_append_of_ne_nil _ htlne]
                  exact List.mem_append_left _ (by simp)
              · intro t' ht' hm' p hp
                obtain ⟨haposT, hne0⟩ := hprep t' ht' hm'
                have htls : ∀ q ∈ (if a.transformations ≠ [] then
                    a.transformations.flatMap (fun tr =>
                      if S "calculate" <:+: lowerS tr then [S "    -- Add calculated fields here"]
                      else if S "convert" <:+: lowerS tr then [S "    -- Add conversion logic here"]
                      else if S "column" <:+: lowerS tr ∨ S "field" <:+: lowerS tr then
                        [S "    -- Add new column here"]
                      else [])
                    else [S "    current_timestamp as processed_at"]),
                    ¬ refNeedle t'.name <:+: q := by
                  intro q hq
                  by_cases htr2 : a.transformations ≠ []
                  · rw [if_pos htr2] at hq
                    obtain ⟨tr, _, hq⟩ := List.mem_flatMap.mp hq
                    split at hq
                    · rw [List.mem_singleton] at hq
                      subst hq
                      exact needle_kill_apos (by decide)
                    · split at hq
                      · rw [List.mem_singleton] at hq
                        subst hq
                        exact needle_kill_apos (by decide)
                      · split at hq
                        · rw [List.mem_singleton] at hq
                          subst hq
                          exact needle_kill_apos (by decide)
                        · simp at hq
                  · rw [if_neg htr2] at hq
                    rw [List.mem_singleton] at hq
                    subst hq
                    exact needle_kill_apos (by decide)
                rcases List.mem_append.mp hp with hp | hp
                · exact configParts_safe a hmat t'.name p hp
                · have hS : ∀ q ∈ generateBody a, ¬ refNeedle t'.name <:+: q := by
                    rw [hbody]
                    unfold generate_transform_sql
                    rw [href]
                    have hhm : ∀ q ∈ ([S "with", ([] : Str), S "source_data as (",
                        S "  select * from " ++ refStrOf t0, S "),", ([] : Str),
                        S "transformed as (", S "  select", S "    *,"] ++
                        (if a.transformations ≠ [] then
                          a.transformations.flatMap (fun tr =>
                            if S "calculate" <:+: lowerS tr then
                              [S "    -- Add calculated fields here"]
                            else if S "convert" <:+: lowerS tr then
                              [S "    -- Add conversion logic here"]
                            else if S "column" <:+: lowerS tr ∨ S "field" <:+: lowerS tr then
                              [S "    -- Add new column here"]
                            else [])
                          else [S "    current_timestamp as processed_at"])),
                        ¬ refNeedle t'.name <:+: q := by
                      simp only [List.forall_mem_cons, List.forall_mem_append]
                      repeat' apply And.intro
                      all_goals first
                        | exact List.forall_mem_nil _
                        | exact needle_kill_apos (by decide)
                        | exact needle_kill_refLine _ (by decide) haposT hapos0 hne0
                        | exact htls
                    simp only [List.forall_mem_cons, List.forall_mem_append]
                    repeat' apply And.intro
                    all_goals first
                      | exact List.forall_mem_nil _
                      | exact needle_kill_apos (by decide)
                      | (intro q hq
                         rcases mem_stripLastComma hq with hq | ⟨q0, hq0, rfl⟩
                         · exact hhm q hq
                         · exact needle_kill_dropLast (hhm q0 hq0))
                  exact hS p hp
            · have hbody : generateBody a = generate_simple_select_sql a := by
                unfold generateBody
                rw [if_neg hj, if_neg hAg, if_neg hFi, if_neg hTr]
              constructor
              · intro u hu
                have := htmem u hu
                subst this
                refine ⟨S "select * from ", ?_⟩
                rw [hbody]
                unfold generate_simple_select_sql
                rw [href]
                exact List.mem_append_right _ (by simp)
              · intro t' ht' hm' p hp
                obtain ⟨haposT, hne0⟩ := hprep t' ht' hm'
                rcases List.mem_append.mp hp with hp | hp
                · exact configParts_safe a hmat t'.name p hp
                · have hS : ∀ q ∈ generateBody a, ¬ refNeedle t'.name <:+: q := by
                    rw [hbody]
                    unfold generate_simple_select_sql
                    rw [href]
                    simp only [List.forall_mem_cons]
                    repeat' apply And.intro
                    all_goals first
                      | exact List.forall_mem_nil _
                      | exact needle_kill_refLine _ (by decide) haposT hapos0 hne0
                  exact hS p hp
  intro t ht
  constructor
  · intro hm
    obtain ⟨pre, hmem⟩ := hmain.1 t ht
    have hline := @joinWith_infix_of_mem [ '\n' ] _ _ hmem
    rw [← hsql] at hline
    refine (?_ : refWrap t.name <:+: pre ++ refStrOf t).trans hline
    rw [refStrOf, if_pos hm]
    exact (List.suffix_append pre _).isInfix
  · intro hm
    constructor
    · obtain ⟨pre, hmem⟩ := hmain.1 t ht
      have hline := @joinWith_infix_of_mem [ '\n' ] _ _ hmem
      rw [← hsql] at hline
      refine (?_ : t.name <:+: pre ++ refStrOf t).trans hline
      rw [refStrOf, if_neg (by rw [hm]; exact Bool.false_ne_true)]
      exact (List.suffix_append pre _).isInfix
    · intro hneedle
      rw [hsql] at hneedle
      obtain ⟨p, hp, hpin⟩ := infix_joinWith_newline (refNeedle_ne_nil _)
        (newline_not_mem_needle (hident t ht)) hneedle
      exact hmain.2 t ht hm p hp hpin

/-- Witness for C4 at a join analysis over the model `customers` and the raw
table `orders`. -/
theorem c4_witness :
    ((∀ t ∈ (PromptAnalysis.table_references ⟨.JOIN_TABLES, mkRat 1 5,
      [⟨S "customers", true, mkRat 9 10⟩, ⟨S "orders", false, mkRat 6 10⟩],
      [], [], [], [], [S "customers"], none, S "table", none⟩),
        ∀ c ∈ t.name, isIdentChar c = true) ∧
     (usedRefs ⟨.JOIN_TABLES, mkRat 1 5,
      [⟨S "customers", true, mkRat 9 10⟩, ⟨S "orders", false, mkRat 6 10⟩],
      [], [], [], [], [S "customers"], none, S "table", none⟩).Pairwise (fun t1 t2 => t1.name ≠ t2.name) ∧
     (∀ j ∈ (PromptAnalysis.join_requirements ⟨.JOIN_TABLES, mkRat 1 5,
      [⟨S "customers", true, mkRat 9 10⟩, ⟨S "orders", false, mkRat 6 10⟩],
      [], [], [], [], [S "customers"], none, S "table", none⟩),
        j.join_type ∈ [S "inner", S "left", S "right", S "full"]) ∧
     (PromptAnalysis.materialization ⟨.JOIN_TABLES, mkRat 1 5,
      [⟨S "customers", true, mkRat 9 10⟩, ⟨S "orders", false, mkRat 6 10⟩],
      [], [], [], [], [S "customers"], none, S "table", none⟩) ∈ dbtMaterializations ∧
     (∀ g ∈ (PromptAnalysis.filters ⟨.JOIN_TABLES, mkRat 1 5,
      [⟨S "customers", true, mkRat 9 10⟩, ⟨S "orders", false, mkRat 6 10⟩],
      [], [], [], [], [S "customers"], none, S "table", none⟩), ¬ S "ref(" <:+: g) ∧
     (∀ g ∈ (PromptAnalysis.aggregations ⟨.JOIN_TABLES, mkRat 1 5,
      [⟨S "customers", true, mkRat 9 10⟩, ⟨S "orders", false, mkRat 6 10⟩],
      [], [], [], [], [S "customers"], none, S "table", none⟩), ¬ S "ref(" <:+: g)) ∧
    (∀ t ∈ usedRefs ⟨.JOIN_TABLES, mkRat 1 5,
      [⟨S "customers", true, mkRat 9 10⟩, ⟨S "orders", false, mkRat 6 10⟩],
      [], [], [], [], [S "customers"], none, S "table", none⟩,
      (t.is_model = true →
        refWrap t.name <:+: (mock_kiro_ai_generation ⟨.JOIN_TABLES, mkRat 1 5,
      [⟨S "customers", true, mkRat 9 10⟩, ⟨S "orders", false, mkRat 6 10⟩],
      [], [], [], [], [S "customers"], none, S "table", none⟩).sql) ∧
      (t.is_model = false →
        t.name <:+: (mock_kiro_ai_generation ⟨.JOIN_TABLES, mkRat 1 5,
      [⟨S "customers", true, mkRat 9 10⟩, ⟨S "orders", false, mkRat 6 10⟩],
      [], [], [], [], [S "customers"], none, S "table", none⟩).sql ∧
        ¬ refNeedle t.name <:+: (mock_kiro_ai_generation ⟨.JOIN_TABLES, mkRat 1 5,
      [⟨S "customers", true, mkRat 9 10⟩, ⟨S "orders", false, mkRat 6 10⟩],
      [], [], [], [], [S "customers"], none, S "table", none⟩).sql)) :=
  ⟨by decide,
   c4_ref_vs_raw ⟨.JOIN_TABLES, mkRat 1 5,
      [⟨S "customers", true, mkRat 9 10⟩, ⟨S "orders", false, mkRat 6 10⟩],
      [], [], [], [], [S "customers"], none, S "table", none⟩
     (by decide) (by decide) (by decide) (by decide) (by decide) (by decide)⟩
